import Mathlib

/-!
Shallow embedding of the personal-finance ledger implemented in
src/finance.py, together with proofs settling the frozen claims about its
specification.

Modelling conventions:
* Python strings are Lean `String`s; the character-level helpers below model
  the ASCII fragment of Python's `str.strip`, `str.lower`, `str.zfill`,
  `str.split`, `int(...)` and `float(...)` that the program exercises
  (the program only ever feeds them ASCII CSV fields and digit strings).
* Python floats are modelled exactly, as `PyFloat`: a finite rational, one of
  the two infinities, or nan.  `float(s)` is modelled as exact-rational
  parsing of Python's float grammar (sign, decimal mantissa, exponent,
  inf/infinity/nan, case-insensitive, surrounding whitespace stripped);
  binary rounding, OverflowError on huge exponents, digit-group underscores
  and non-ASCII digits are outside the model.  `str(f)` is modelled as an
  exact plain decimal numeral (integer part, dot, fractional digits), which
  is value-faithful to CPython's repr round-trip guarantee, though the number
  of printed fractional digits may differ from CPython's shortest form.
* `datetime.date` values are `PyDate` triples; `strftime("%d-%m-%Y")` is
  modelled as zero-padded 2/2/4-digit fields and `strptime(s, "%d-%m-%Y")`
  with CPython's actual leniency: one or two digits for day (1..31) and
  month (1..12), exactly four digits for the year, then calendar validation
  as in datetime.date.
* The mutable module-level `transactions` list is threaded explicitly: every
  operation takes the current list and the functions named `*_run` also
  return the list that the Python global holds after the call (in the source,
  the only statements that mutate the global are the final append+sort of
  add_transaction, so an operation that raises leaves the list as it was).
* `datetime.now().date()` is passed in as the parameter `today`.
* File I/O is modelled at line granularity: save produces the list of
  written lines, load consumes a list of (already newline-split) lines.
-/

deriving instance DecidableEq for Except

namespace Finance

/-- Characters removed by Python str.strip (ASCII whitespace). -/
def isSpaceCh (c : Char) : Bool :=
  c.toNat == 32 || c.toNat == 9 || c.toNat == 10 || c.toNat == 13 ||
    c.toNat == 11 || c.toNat == 12

/-- ASCII decimal digit test. -/
def isDigitCh (c : Char) : Bool := 48 ≤ c.toNat && c.toNat ≤ 57

/-- ASCII upper-case letter test. -/
def isUpperCh (c : Char) : Bool := 65 ≤ c.toNat && c.toNat ≤ 90

/-- Numeric value of a digit character. -/
def digitVal (c : Char) : ℕ := c.toNat - 48

/-- Digit character for a value below ten. -/
def digitChar : ℕ → Char
  | 0 => '0' | 1 => '1' | 2 => '2' | 3 => '3' | 4 => '4'
  | 5 => '5' | 6 => '6' | 7 => '7' | 8 => '8' | 9 => '9'
  | _ => '*'

/-- ASCII fragment of Python str.lower, character-wise. -/
def lowerCh (c : Char) : Char :=
  if 65 ≤ c.toNat ∧ c.toNat ≤ 90 then Char.ofNat (c.toNat + 32) else c

/-- Python str.strip on a character list: drop ASCII whitespace at both ends. -/
def pyStripChars (cs : List Char) : List Char :=
  (((cs.dropWhile isSpaceCh).reverse).dropWhile isSpaceCh).reverse

/-- Python str.strip. -/
def pyStrip (s : String) : String := ⟨pyStripChars s.data⟩

/-- Python str.split(sep) for a single-character separator: the result is
always non-empty and splitting the empty string yields one empty field. -/
def splitOnCh (sep : Char) : List Char → List (List Char)
  | [] => [[]]
  | c :: rest =>
    if c = sep then [] :: splitOnCh sep rest
    else
      match splitOnCh sep rest with
      | g :: gs => (c :: g) :: gs
      | [] => [[c]]

/-- Inverse of splitOnCh: interpose the separator between the groups. -/
def joinSep (sep : Char) : List (List Char) → List Char
  | [] => []
  | [g] => g
  | g :: gs => g ++ sep :: joinSep sep gs

/-- Value of a most-significant-first digit string. -/
def valDigitsFrom (a : ℕ) (cs : List Char) : ℕ :=
  cs.foldl (fun acc c => acc * 10 + digitVal c) a

/-- Value of a most-significant-first digit string, from zero. -/
def valDigits (cs : List Char) : ℕ := valDigitsFrom 0 cs

/-- Base-ten digits of a natural number, least significant first, with
explicit fuel so that the kernel can evaluate it. -/
def natDigitsFuel : ℕ → ℕ → List ℕ
  | _, 0 => []
  | 0, _ + 1 => []
  | fuel + 1, n + 1 => ((n + 1) % 10) :: natDigitsFuel fuel ((n + 1) / 10)

/-- Value of a least-significant-first digit list. -/
def lsbVal (ds : List ℕ) : ℕ := ds.foldr (fun d acc => d + 10 * acc) 0

/-- Most-significant-first digit characters of a natural number (empty for 0). -/
def natDChars (n : ℕ) : List Char := (natDigitsFuel n n).reverse.map digitChar

/-- Digit characters of n, left-padded with zeros to at least width w. -/
def natPadChars (w n : ℕ) : List Char :=
  List.replicate (w - (natDChars n).length) '0' ++ natDChars n

/-- Factor out powers of p: stripFuel p fuel n = (e, r) with n = p^e * r and
p not dividing r, provided fuel ≥ n, 2 ≤ p and 1 ≤ n. -/
def stripFuel (p : ℕ) : ℕ → ℕ → ℕ × ℕ
  | 0, n => (0, n)
  | fuel + 1, n =>
    if 2 ≤ p ∧ 1 ≤ n ∧ n % p = 0 then
      let pr := stripFuel p fuel (n / p)
      (pr.1 + 1, pr.2)
    else (0, n)

/-- Factor out powers of p from n. -/
def stripP (p n : ℕ) : ℕ × ℕ := stripFuel p n n

/-- A denominator consisting only of factors 2 and 5, i.e. the rational is an
exact decimal. -/
def isDecDen (d : ℕ) : Bool := (stripP 5 (stripP 2 d).2).2 == 1

/-- Number of decimal digits needed after the point for denominator d. -/
def decScale (d : ℕ) : ℕ := max (stripP 2 d).1 (stripP 5 (stripP 2 d).2).1

/-- Exact model of a Python float value. -/
inductive PyFloat where
  | finite (q : ℚ)
  | inf
  | ninf
  | nan
deriving DecidableEq, Repr

/-- Python unary minus on floats (float("-nan") is still nan). -/
def PyFloat.neg : PyFloat → PyFloat
  | finite q => finite (-q)
  | inf => ninf
  | ninf => inf
  | nan => nan

/-- The comparison f < 0 on Python floats: false for nan and +inf. -/
def pyLt0 : PyFloat → Bool
  | .finite q => decide (q < 0)
  | .inf => false
  | .ninf => true
  | .nan => false

/-- Python float addition on the modelled values. -/
def pyAdd : PyFloat → PyFloat → PyFloat
  | .nan, _ => .nan
  | _, .nan => .nan
  | .inf, .ninf => .nan
  | .ninf, .inf => .nan
  | .inf, _ => .inf
  | _, .inf => .inf
  | .ninf, _ => .ninf
  | _, .ninf => .ninf
  | .finite a, .finite b => .finite (a + b)

/-- Python float subtraction: a - b = a + (-b) holds for all float cases. -/
def pySub (a b : PyFloat) : PyFloat := pyAdd a b.neg

/-- Mantissa of the float grammar: digits, optionally split by one dot, at
least one digit in total. -/
def parseMantissa (cs : List Char) : Option ℚ :=
  match splitOnCh '.' cs with
  | [intPart] =>
    if intPart ≠ [] ∧ ∀ c ∈ intPart, isDigitCh c = true then
      some (valDigits intPart : ℚ)
    else none
  | [intPart, fracPart] =>
    if intPart ++ fracPart ≠ [] ∧ (∀ c ∈ intPart, isDigitCh c = true) ∧
        (∀ c ∈ fracPart, isDigitCh c = true) then
      some ((valDigits (intPart ++ fracPart) : ℚ) / 10 ^ fracPart.length)
    else none
  | _ => none

/-- Exponent part of the float grammar: optional sign then digits. -/
def parseExpPart (cs : List Char) : Option ℤ :=
  match cs with
  | '+' :: r =>
    if r ≠ [] ∧ ∀ c ∈ r, isDigitCh c = true then some (valDigits r : ℤ) else none
  | '-' :: r =>
    if r ≠ [] ∧ ∀ c ∈ r, isDigitCh c = true then some (-(valDigits r : ℤ)) else none
  | _ =>
    if cs ≠ [] ∧ ∀ c ∈ cs, isDigitCh c = true then some (valDigits cs : ℤ) else none

/-- Unsigned part of Python float(s) on already lower-cased characters:
inf/infinity/nan, or mantissa with optional e-exponent. -/
def parseAbsFloat (cs : List Char) : Option PyFloat :=
  if cs = "inf".data ∨ cs = "infinity".data then some .inf
  else if cs = "nan".data then some .nan
  else
    match splitOnCh 'e' cs with
    | [m] => (parseMantissa m).map .finite
    | [m, e] =>
      match parseMantissa m, parseExpPart e with
      | some q, some ex => some (.finite (q * 10 ^ ex))
      | _, _ => none
    | _ => none

/-- Optional leading sign of the float grammar. -/
def pyFloatSigned : List Char → Option PyFloat
  | [] => parseAbsFloat []
  | c :: r =>
    if c = '+' then parseAbsFloat r
    else if c = '-' then (parseAbsFloat r).map PyFloat.neg
    else parseAbsFloat (c :: r)

/-- Model of Python float(s): strip whitespace, case-fold, optional sign,
then the unsigned grammar. -/
def pyFloatOfString (s : String) : Option PyFloat :=
  pyFloatSigned ((pyStripChars s.data).map lowerCh)

/-- Decimal numeral for a non-negative exact-decimal rational, in the shape
integer digits, dot, at least one fractional digit (as Python str of a float
prints e.g. 100.0). -/
def fmtPosQ (q : ℚ) : List Char :=
  let k := max 1 (decScale q.den)
  let m := ((q.num * (10 : ℤ) ^ k) / (q.den : ℤ)).toNat
  let total := natPadChars (k + 1) m
  let i := total.length - k
  total.take i ++ '.' :: total.drop i

/-- Model of Python str(f) for a float f. -/
def strOfPyFloat : PyFloat → String
  | .inf => "inf"
  | .ninf => "-inf"
  | .nan => "nan"
  | .finite q => if q < 0 then ⟨'-' :: fmtPosQ (-q)⟩ else ⟨fmtPosQ q⟩

/-- A calendar date as datetime.date holds it. -/
structure PyDate where
  year : ℕ
  month : ℕ
  day : ℕ
deriving DecidableEq, Repr

/-- Strict date comparison a < b (year, then month, then day). -/
def PyDate.ltB (a b : PyDate) : Bool :=
  decide (a.year < b.year) ||
    (a.year == b.year &&
      (decide (a.month < b.month) ||
        (a.month == b.month && decide (a.day < b.day))))

/-- Date comparison a ≤ b. -/
def PyDate.leB (a b : PyDate) : Bool :=
  decide (a.year < b.year) ||
    (a.year == b.year &&
      (decide (a.month < b.month) ||
        (a.month == b.month && decide (a.day ≤ b.day))))

/-- Gregorian leap-year rule, as datetime uses. -/
def isLeapYear (y : ℕ) : Bool := y % 4 == 0 && (y % 100 != 0 || y % 400 == 0)

/-- Days in a month (months 1..12). -/
def daysInMonth (y m : ℕ) : ℕ :=
  if m = 2 then (if isLeapYear y then 29 else 28)
  else if m = 4 ∨ m = 6 ∨ m = 9 ∨ m = 11 then 30
  else 31

/-- Model of datetime.strptime(s, "%d-%m-%Y").date(): CPython's %d and %m
match one or two digits with values 1..31 and 1..12, %Y matches exactly four
digits, the separators are literal, the whole string must be consumed, and
datetime.date then validates the triple (year at least 1, day within the
month). -/
def parseDateDMY (s : String) : Option PyDate :=
  match splitOnCh '-' s.data with
  | [dd, mm, yy] =>
    let d := valDigits dd
    let m := valDigits mm
    let y := valDigits yy
    if (∀ c ∈ dd, isDigitCh c = true) ∧ 1 ≤ dd.length ∧ dd.length ≤ 2 ∧
        1 ≤ d ∧ d ≤ 31 ∧
        (∀ c ∈ mm, isDigitCh c = true) ∧ 1 ≤ mm.length ∧ mm.length ≤ 2 ∧
        1 ≤ m ∧ m ≤ 12 ∧
        (∀ c ∈ yy, isDigitCh c = true) ∧ yy.length = 4 ∧
        1 ≤ y ∧ d ≤ daysInMonth y m
    then some ⟨y, m, d⟩ else none
  | _ => none

/-- Model of date.strftime("%d-%m-%Y"): two-digit day and month, four-digit
year (zero-padded). -/
def fmtDateDMYChars (d : PyDate) : List Char :=
  natPadChars 2 d.day ++ '-' :: natPadChars 2 d.month ++ '-' :: natPadChars 4 d.year

/-- String form of strftime("%d-%m-%Y"). -/
def fmtDateDMY (d : PyDate) : String := ⟨fmtDateDMYChars d⟩

/-- One entry of the module-level transactions list: the dict
with keys "type", "amount", "category", "date" built by add_transaction. -/
structure Txn where
  type : String
  amount : PyFloat
  category : String
  date : PyDate
deriving DecidableEq, Repr

/-- The ValueError raised by each validation step of add_transaction. -/
inductive AddError where
  | invalidType
  | emptyCategory
  | invalidAmount
  | invalidDate
deriving DecidableEq, Repr

/-- Lines 69-76 of finance.py: amount = float(amount.strip()); raise on a
parse failure or on amount < 0 (nan and inf are not < 0). -/
def validateAmount (amount : String) : Except AddError PyFloat :=
  match pyFloatOfString (pyStrip amount) with
  | none => .error .invalidAmount
  | some f => if pyLt0 f then .error .invalidAmount else .ok f

/-- Lines 78-85 of finance.py: dt = strptime(dt_str, "%d-%m-%Y").date();
raise on a parse failure or if dt > today. -/
def validateDate (dtStr : String) (today : PyDate) : Except AddError PyDate :=
  match parseDateDMY dtStr with
  | none => .error .invalidDate
  | some dt => if PyDate.ltB today dt then .error .invalidDate else .ok dt

/-- The validation pipeline of add_transaction (lines 57-85), in source
order, producing the dict appended on success (the source reassigns the
stripped type and category before validating them; here the stripped values
are written inline). -/
def validateTxn (today : PyDate) (transType amount category dtStr : String) :
    Except AddError Txn :=
  if ¬ (pyStrip transType = "income" ∨ pyStrip transType = "outcome") then
    .error .invalidType
  else if pyStrip category = "" then .error .emptyCategory
  else
    match validateAmount amount with
    | .error e => .error e
    | .ok f =>
      match validateDate dtStr today with
      | .error e => .error e
      | .ok dt => .ok ⟨pyStrip transType, f, pyStrip category, dt⟩

/-- The date order used by transactions.sort(key=lambda t: t["date"]). -/
def dateLE (a b : Txn) : Prop := PyDate.leB a.date b.date = true

instance : DecidableRel dateLE := fun a b => by unfold dateLE; infer_instance

/-- Model of the stable Python list.sort by date (line 96): any stable sort
with the same key produces the same list, and insertion sort inserting after
equal keys is stable. -/
def pySortByDate (l : List Txn) : List Txn := l.insertionSort dateLE

/-- finance.py add_transaction: validate, then append the new dict and
re-sort the list by date.  On error the list is untouched (the raise happens
before the append). -/
def add_transaction (txns : List Txn) (today : PyDate)
    (transType amount category dtStr : String) : Except AddError (List Txn) :=
  (validateTxn today transType amount category dtStr).map
    (fun t => pySortByDate (txns ++ [t]))

/-- State of the transactions global after an add_transaction call, together
with the raised error if any: the source mutates the list only in its last
two statements, after every raise point. -/
def add_transaction_run (txns : List Txn) (today : PyDate)
    (transType amount category dtStr : String) : List Txn × Option AddError :=
  match add_transaction txns today transType amount category dtStr with
  | .ok l => (l, none)
  | .error e => (txns, some e)

/-- Errors of load_transactions: the ValueError of unpacking a row that does
not split into exactly four fields, or an add_transaction error. -/
inductive LoadError where
  | unpack
  | add (e : AddError)
deriving DecidableEq, Repr

/-- One iteration of the load loop (lines 27-36), minus the state: blank
rows are skipped, a row must split on commas into exactly four fields, each
field is stripped and fed through the add_transaction validation. -/
def parseLine (today : PyDate) (row : String) : Except LoadError (Option Txn) :=
  if pyStripChars row.data = [] then .ok none
  else
    match (splitOnCh ',' (pyStripChars row.data)).map (fun g => pyStripChars g) with
    | [t, a, c, d] =>
      match validateTxn today ⟨t⟩ ⟨a⟩ ⟨c⟩ ⟨d⟩ with
      | .ok tx => .ok (some tx)
      | .error e => .error (.add e)
    | _ => .error .unpack

/-- One iteration of the load loop applied to the current list. -/
def processLine (txns : List Txn) (today : PyDate) (row : String) :
    Except LoadError (List Txn) :=
  match parseLine today row with
  | .ok none => .ok txns
  | .ok (some tx) => .ok (pySortByDate (txns ++ [tx]))
  | .error e => .error e

/-- finance.py load_transactions over the file's lines: each line goes
through add_transaction, mutating the in-memory list as it goes; the first
failing line raises, leaving the list with everything added so far.  The
result is the list the global holds afterwards plus the raised error (if
any). -/
def load_transactions (txns : List Txn) (today : PyDate) :
    List String → List Txn × Option LoadError
  | [] => (txns, none)
  | row :: rest =>
    match processLine txns today row with
    | .ok txns2 => load_transactions txns2 today rest
    | .error e => (txns, some e)

/-- The literal sixteen spaces that the backslash line continuation inside
the f-string of save_transactions (lines 109-110) embeds between the
category's comma and the date field. -/
def savePad : List Char := List.replicate 16 ' '

/-- The characters save_transactions writes for one transaction (without the
trailing newline): type, amount, category, then the continuation padding and
the formatted (and stripped) date. -/
def saveLineChars (t : Txn) : List Char :=
  t.type.data ++ ',' :: (strOfPyFloat t.amount).data ++ ',' :: t.category.data
    ++ ',' :: (savePad ++ fmtDateDMYChars t.date)

/-- One written CSV line. -/
def saveLine (t : Txn) : String := ⟨saveLineChars t⟩

/-- finance.py save_transactions: one line per transaction, in list order,
overwriting the destination. -/
def save_transactions (txns : List Txn) : List String := txns.map saveLine

/-- Python sum() over a list of floats, starting from 0. -/
def pySum (l : List PyFloat) : PyFloat := l.foldl pyAdd (.finite 0)

/-- Total of the amounts of the income transactions of a list. -/
def sumIncome (txns : List Txn) : PyFloat :=
  pySum ((txns.filter (fun t => t.type == "income")).map (fun t => t.amount))

/-- Total of the amounts of the outcome transactions of a list. -/
def sumOutcome (txns : List Txn) : PyFloat :=
  pySum ((txns.filter (fun t => t.type == "outcome")).map (fun t => t.amount))

/-- finance.py view_summary: total income, total outcome and balance; the
printing is I/O and the function reads the list only. -/
def view_summary (txns : List Txn) : PyFloat × PyFloat × PyFloat :=
  (sumIncome txns, sumOutcome txns, pySub (sumIncome txns) (sumOutcome txns))

/-- State of the transactions global after view_summary, with its result:
the source only reads the list. -/
def view_summary_run (txns : List Txn) :
    List Txn × (PyFloat × PyFloat × PyFloat) :=
  (txns, view_summary txns)

/-- Python str.zfill(w): left-pad with zeros to width w, after a leading
sign if present. -/
def pyZfillChars (w : ℕ) (cs : List Char) : List Char :=
  if w ≤ cs.length then cs
  else
    match cs with
    | c :: rest =>
      if c = '+' ∨ c = '-' then c :: (List.replicate (w - cs.length) '0' ++ rest)
      else List.replicate (w - cs.length) '0' ++ cs
    | [] => List.replicate w '0'

/-- Model of Python int(s) (ASCII fragment): strip, optional sign, at least
one digit. -/
def pyIntChars (cs : List Char) : Option ℤ :=
  match pyStripChars cs with
  | '+' :: r =>
    if r ≠ [] ∧ ∀ c ∈ r, isDigitCh c = true then some (valDigits r : ℤ) else none
  | '-' :: r =>
    if r ≠ [] ∧ ∀ c ∈ r, isDigitCh c = true then some (-(valDigits r : ℤ)) else none
  | r =>
    if r ≠ [] ∧ ∀ c ∈ r, isDigitCh c = true then some (valDigits r : ℤ) else none

/-- Python int(s) on a string. -/
def pyIntOfString (s : String) : Option ℤ := pyIntChars s.data

/-- The regex match of view_monthly_summary, line 174: the pattern is the
interpolation of the zfilled month and year into a fixed frame, matched
against a strftime-formatted date.  Modelled as the literal-text match,
which agrees with re.match for the metacharacter-free (digit-only) patterns
the validated inputs produce. -/
def monthRegexMatch (mz yz ds : List Char) : Bool :=
  match ds with
  | a :: b :: rest => isDigitCh a && isDigitCh b && (rest == '-' :: (mz ++ '-' :: yz))
  | _ => false

/-- The source's monthly_transactions list (line 172): the transactions
whose formatted date matches the regex built from the stripped, zfilled
inputs. -/
def monthly_transactions (txns : List Txn) (monthRaw yearRaw : String) :
    List Txn :=
  txns.filter (fun t =>
    monthRegexMatch (pyZfillChars 2 (pyStripChars monthRaw.data))
      (pyZfillChars 4 (pyStripChars yearRaw.data)) (fmtDateDMYChars t.date))

/-- finance.py view_monthly_summary: the two input() strings are parameters;
the regex is built from the stripped, zfilled inputs, the integer forms are
range-checked, and the matching transactions (in list order) are summed. -/
def view_monthly_summary (txns : List Txn) (monthRaw yearRaw : String)
    (today : PyDate) : Except String (List Txn × PyFloat × PyFloat) :=
  match pyIntChars (pyStripChars monthRaw.data),
      pyIntChars (pyStripChars yearRaw.data) with
  | some m, some y =>
    if 12 < m ∨ m < 1 ∨ (today.year : ℤ) < y then .error "Invalid date values."
    else
      .ok (monthly_transactions txns monthRaw yearRaw,
        sumIncome (monthly_transactions txns monthRaw yearRaw),
        sumOutcome (monthly_transactions txns monthRaw yearRaw))
  | _, _ => .error "Invalid date values."

/-- State of the transactions global after view_monthly_summary, with its
result: the source builds a new filtered list and never writes the global. -/
def view_monthly_summary_run (txns : List Txn) (monthRaw yearRaw : String)
    (today : PyDate) :
    List Txn × Except String (List Txn × PyFloat × PyFloat) :=
  (txns, view_monthly_summary txns monthRaw yearRaw today)

/-- The source's category_transactions list (line 213): the transactions
whose stored category equals the lower-cased, stripped input exactly. -/
def category_transactions (txns : List Txn) (rawInput : String) : List Txn :=
  txns.filter (fun t =>
    t.category == (⟨pyStripChars (rawInput.data.map lowerCh)⟩ : String))

/-- finance.py filter_by_category: the input() string is a parameter; it is
lower-cased then stripped, and transactions whose stored category equals it
exactly are selected, in list order, and summed. -/
def filter_by_category (txns : List Txn) (rawInput : String) :
    List Txn × PyFloat × PyFloat :=
  (category_transactions txns rawInput,
    sumIncome (category_transactions txns rawInput),
    sumOutcome (category_transactions txns rawInput))

/-- State of the transactions global after filter_by_category, with its
result: the source only reads the list. -/
def filter_by_category_run (txns : List Txn) (rawInput : String) :
    List Txn × (List Txn × PyFloat × PyFloat) :=
  (txns, filter_by_category txns rawInput)

/-- Reading an Except result: the property holds of the selected list when
the call succeeds (vacuous on error). -/
def okProp (r : Except String (List Txn × PyFloat × PyFloat))
    (P : List Txn → Prop) : Prop :=
  match r with
  | .ok v => P v.1
  | .error _ => True

/-- Whether one load-loop iteration on this row succeeds; line validity does
not depend on the accumulated list. -/
def lineOk (today : PyDate) (row : String) : Bool :=
  match parseLine today row with
  | .ok _ => true
  | .error _ => false

/-- Following the spec's words, for refinement comparison (claim C8): a date
string of the fixed pattern two-digit day, two-digit month, four-digit
year. -/
def specDMYStrict (s : String) : Bool :=
  match s.data with
  | [d1, d2, '-', m1, m2, '-', y1, y2, y3, y4] =>
    isDigitCh d1 && isDigitCh d2 && isDigitCh m1 && isDigitCh m2 &&
      isDigitCh y1 && isDigitCh y2 && isDigitCh y3 && isDigitCh y4
  | _ => false

/-! ### Character and list lemmas -/

lemma isSpaceCh_eq_false_of_digit {c : Char} (h : isDigitCh c = true) :
    isSpaceCh c = false := by
  simp only [isDigitCh, Bool.and_eq_true, decide_eq_true_eq] at h
  simp only [isSpaceCh, Bool.or_eq_false_iff, beq_eq_false_iff_ne]
  omega

lemma ne_of_digit {c x : Char} (h : isDigitCh c = true) (hx : isDigitCh x = false) :
    c ≠ x := by
  intro he; rw [he, hx] at h; exact Bool.false_ne_true h

lemma lowerCh_eq_self_of_not_upper {c : Char} (h : isUpperCh c = false) :
    lowerCh c = c := by
  simp only [isUpperCh, Bool.and_eq_false_iff, decide_eq_false_iff_not] at h
  unfold lowerCh
  rw [if_neg]; omega

lemma not_upper_of_digit {c : Char} (h : isDigitCh c = true) :
    isUpperCh c = false := by
  simp only [isDigitCh, Bool.and_eq_true, decide_eq_true_eq] at h
  simp only [isUpperCh, Bool.and_eq_false_iff, decide_eq_false_iff_not]
  omega

lemma isUpperCh_lowerCh (c : Char) : isUpperCh (lowerCh c) = false := by
  unfold lowerCh
  split
  · next h =>
    simp only [isUpperCh, Bool.and_eq_false_iff, decide_eq_false_iff_not]
    have hvalid : (c.toNat + 32).isValidChar := Or.inl (by omega)
    have hv : (Char.ofNat (c.toNat + 32)).toNat = c.toNat + 32 := by
      rw [Char.ofNat, dif_pos hvalid]
      rfl
    omega
  · next h =>
    simp only [isUpperCh, Bool.and_eq_false_iff, decide_eq_false_iff_not]
    omega

lemma dropWhile_append_of_head {p : Char → Bool} {A : List Char} (B : List Char)
    (hA : A ≠ []) (h : ∀ c ∈ A, p c = false) :
    (A ++ B).dropWhile p = A ++ B := by
  cases A with
  | nil => exact absurd rfl hA
  | cons a A2 =>
    simp only [List.cons_append, List.dropWhile_cons,
      h a (List.mem_cons_self a A2), Bool.false_eq_true, if_false]

lemma pyStripChars_eq_self (A M S : List Char) (hA : A ≠ []) (hS : S ≠ [])
    (hAc : ∀ c ∈ A, isSpaceCh c = false) (hSc : ∀ c ∈ S, isSpaceCh c = false) :
    pyStripChars (A ++ (M ++ S)) = A ++ (M ++ S) := by
  unfold pyStripChars
  rw [dropWhile_append_of_head _ hA hAc]
  have hrev : (A ++ (M ++ S)).reverse = S.reverse ++ (M.reverse ++ A.reverse) := by
    simp [List.reverse_append, List.append_assoc]
  rw [hrev, dropWhile_append_of_head _ (by simpa using hS)
    (by intro c hc; exact hSc c (List.mem_reverse.mp hc))]
  rw [← hrev, List.reverse_reverse]

lemma pyStripChars_replicate_space (n : ℕ) (cs : List Char) :
    pyStripChars (List.replicate n ' ' ++ cs) = pyStripChars cs := by
  unfold pyStripChars
  congr 1
  congr 2
  induction n with
  | zero => simp
  | succ k ih =>
    rw [List.replicate_succ, List.cons_append, List.dropWhile_cons]
    simpa using ih

lemma mem_of_mem_pyStripChars {c : Char} {cs : List Char}
    (h : c ∈ pyStripChars cs) : c ∈ cs := by
  unfold pyStripChars at h
  rw [List.mem_reverse] at h
  have h2 := (List.dropWhile_sublist _).mem h
  rw [List.mem_reverse] at h2
  exact (List.dropWhile_sublist _).mem h2

/-! ### splitOnCh lemmas -/

lemma splitOnCh_ne_nil (sep : Char) (cs : List Char) : splitOnCh sep cs ≠ [] := by
  cases cs with
  | nil => simp [splitOnCh]
  | cons c rest =>
    unfold splitOnCh
    split
    · simp
    · split <;> simp

lemma splitOnCh_of_not_mem {sep : Char} {cs : List Char} (h : sep ∉ cs) :
    splitOnCh sep cs = [cs] := by
  induction cs with
  | nil => rfl
  | cons c rest ih =>
    simp only [List.mem_cons, not_or] at h
    have hne : ¬ c = sep := fun he => h.1 he.symm
    simp only [splitOnCh, if_neg hne, ih h.2]

lemma splitOnCh_append {sep : Char} {xs : List Char} (ys : List Char)
    (h : sep ∉ xs) :
    splitOnCh sep (xs ++ sep :: ys) = xs :: splitOnCh sep ys := by
  induction xs with
  | nil => simp [splitOnCh]
  | cons c rest ih =>
    simp only [List.mem_cons, not_or] at h
    have hne : ¬ c = sep := fun he => h.1 he.symm
    have hi := ih h.2
    simp only [List.cons_append, splitOnCh, if_neg hne]
    rw [show rest.append (sep :: ys) = rest ++ sep :: ys from rfl, hi]

lemma joinSep_splitOnCh (sep : Char) (cs : List Char) :
    joinSep sep (splitOnCh sep cs) = cs := by
  induction cs with
  | nil => rfl
  | cons c rest ih =>
    unfold splitOnCh
    split
    · next he =>
      subst he
      cases hg : splitOnCh c rest with
      | nil => exact absurd hg (splitOnCh_ne_nil c rest)
      | cons g gs =>
        rw [hg] at ih
        simp only [joinSep, List.nil_append]
        rw [← ih]
    · next he =>
      cases hg : splitOnCh sep rest with
      | nil => exact absurd hg (splitOnCh_ne_nil sep rest)
      | cons g gs =>
        rw [hg] at ih
        cases gs with
        | nil => simpa [joinSep] using ih
        | cons g2 gs2 => simpa [joinSep] using ih

lemma not_mem_of_mem_splitOnCh {sep : Char} {cs g : List Char}
    (hg : g ∈ splitOnCh sep cs) : sep ∉ g := by
  induction cs generalizing g with
  | nil =>
    simp only [splitOnCh, List.mem_singleton] at hg
    subst hg; simp
  | cons c rest ih =>
    unfold splitOnCh at hg
    split at hg
    · rcases List.mem_cons.mp hg with h1 | h2
      · subst h1; simp
      · exact ih h2
    · next hne =>
      cases hsp : splitOnCh sep rest with
      | nil => exact absurd hsp (splitOnCh_ne_nil sep rest)
      | cons g0 gs0 =>
        rw [hsp] at hg
        rcases List.mem_cons.mp hg with h1 | h2
        · subst h1
          intro hmem
          rcases List.mem_cons.mp hmem with h3 | h4
          · exact hne h3.symm
          · exact ih (hsp ▸ List.mem_cons_self g0 gs0) h4
        · exact ih (hsp ▸ List.mem_cons_of_mem g0 h2)

lemma splitOnCh_three {sep : Char} {cs a b c : List Char}
    (h : splitOnCh sep cs = [a, b, c]) :
    cs = a ++ sep :: (b ++ sep :: c) ∧ sep ∉ a ∧ sep ∉ b ∧ sep ∉ c := by
  refine ⟨?_, ?_, ?_, ?_⟩
  · have hj := joinSep_splitOnCh sep cs
    rw [h] at hj
    simpa [joinSep] using hj.symm
  · exact not_mem_of_mem_splitOnCh (by rw [h]; simp)
  · exact not_mem_of_mem_splitOnCh (by rw [h]; simp)
  · exact not_mem_of_mem_splitOnCh (by rw [h]; simp)

/-! ### Digit-string lemmas -/

lemma digitVal_digitChar {d : ℕ} (h : d < 10) : digitVal (digitChar d) = d := by
  interval_cases d <;> rfl

lemma isDigitCh_digitChar {d : ℕ} (h : d < 10) : isDigitCh (digitChar d) = true := by
  interval_cases d <;> rfl

lemma natDigitsFuel_lt {fuel n d : ℕ} (h : d ∈ natDigitsFuel fuel n) : d < 10 := by
  induction fuel generalizing n with
  | zero => cases n <;> simp [natDigitsFuel] at h
  | succ f ih =>
    cases n with
    | zero => simp [natDigitsFuel] at h
    | succ m =>
      simp only [natDigitsFuel, List.mem_cons] at h
      rcases h with h1 | h2
      · omega
      · exact ih h2

lemma lsbVal_natDigitsFuel : ∀ fuel n, n ≤ fuel → lsbVal (natDigitsFuel fuel n) = n := by
  intro fuel
  induction fuel with
  | zero =>
    intro n h
    interval_cases n
    rfl
  | succ f ih =>
    intro n h
    cases n with
    | zero => rfl
    | succ m =>
      have hd : (m + 1) / 10 ≤ f := by omega
      have ihv := ih ((m + 1) / 10) hd
      show lsbVal (((m + 1) % 10) :: natDigitsFuel f ((m + 1) / 10)) = m + 1
      unfold lsbVal at ihv ⊢
      simp only [List.foldr_cons]
      rw [ihv]
      omega

lemma natDigitsFuel_length_le : ∀ fuel n k, n < 10 ^ k →
    (natDigitsFuel fuel n).length ≤ k := by
  intro fuel
  induction fuel with
  | zero => intro n k _; cases n <;> simp [natDigitsFuel]
  | succ f ih =>
    intro n k hk
    cases n with
    | zero => simp [natDigitsFuel]
    | succ m =>
      cases k with
      | zero => simp at hk
      | succ k2 =>
        have h2 : (m + 1) / 10 < 10 ^ k2 := by
          apply Nat.div_lt_of_lt_mul
          rw [pow_succ] at hk
          omega
        simpa [natDigitsFuel] using ih ((m+1)/10) k2 h2

lemma valDigitsFrom_reverse (ds : List ℕ) (a : ℕ) (h : ∀ d ∈ ds, d < 10) :
    valDigitsFrom a (ds.reverse.map digitChar) = a * 10 ^ ds.length + lsbVal ds := by
  induction ds generalizing a with
  | nil => simp [valDigitsFrom, lsbVal]
  | cons d tail ih =>
    have hd : d < 10 := h d (List.mem_cons_self d tail)
    have ht : ∀ x ∈ tail, x < 10 := fun x hx => h x (List.mem_cons_of_mem d hx)
    simp only [List.reverse_cons, List.map_append, List.map_cons, List.map_nil]
    unfold valDigitsFrom
    rw [List.foldl_append]
    simp only [List.foldl_cons, List.foldl_nil]
    rw [show (tail.reverse.map digitChar).foldl (fun acc c => acc * 10 + digitVal c) a
        = valDigitsFrom a (tail.reverse.map digitChar) from rfl, ih a ht,
      digitVal_digitChar hd]
    simp only [lsbVal, List.foldr_cons, List.length_cons]
    rw [show tail.foldr (fun d acc => d + 10 * acc) 0 = lsbVal tail from rfl]
    ring

lemma valDigits_natDChars (n : ℕ) : valDigits (natDChars n) = n := by
  unfold valDigits natDChars
  rw [valDigitsFrom_reverse _ _ (fun d hd => natDigitsFuel_lt hd)]
  rw [lsbVal_natDigitsFuel n n le_rfl]
  ring

lemma valDigits_replicate_zero (j : ℕ) (cs : List Char) :
    valDigits (List.replicate j '0' ++ cs) = valDigits cs := by
  induction j with
  | zero => simp
  | succ i ih =>
    rw [List.replicate_succ, List.cons_append]
    unfold valDigits valDigitsFrom at *
    simpa using ih

lemma valDigits_natPadChars (w n : ℕ) : valDigits (natPadChars w n) = n := by
  unfold natPadChars
  rw [valDigits_replicate_zero, valDigits_natDChars]

lemma natPadChars_digits {w n : ℕ} {c : Char} (h : c ∈ natPadChars w n) :
    isDigitCh c = true := by
  unfold natPadChars at h
  rcases List.mem_append.mp h with h1 | h2
  · rw [List.eq_of_mem_replicate h1]; rfl
  · unfold natDChars at h2
    rcases List.mem_map.mp h2 with ⟨d, hd, hdc⟩
    rw [← hdc]
    exact isDigitCh_digitChar (natDigitsFuel_lt (List.mem_reverse.mp hd))

lemma natPadChars_length (w n : ℕ) :
    (natPadChars w n).length = max w (natDChars n).length := by
  unfold natPadChars
  rw [List.length_append, List.length_replicate]
  omega

lemma natDChars_length_le {n k : ℕ} (h : n < 10 ^ k) : (natDChars n).length ≤ k := by
  unfold natDChars
  rw [List.length_map, List.length_reverse]
  exact natDigitsFuel_length_le n n k h

lemma natPadChars_length_eq {n k : ℕ} (h : n < 10 ^ k) :
    (natPadChars k n).length = k := by
  rw [natPadChars_length]
  have := natDChars_length_le h
  omega

/-! ### stripFuel and decimal-denominator lemmas -/

lemma stripFuel_spec {p : ℕ} (hp : 2 ≤ p) :
    ∀ fuel n, 1 ≤ n → n ≤ fuel →
      n = p ^ (stripFuel p fuel n).1 * (stripFuel p fuel n).2 ∧
        ¬ p ∣ (stripFuel p fuel n).2 ∧ 1 ≤ (stripFuel p fuel n).2 := by
  intro fuel
  induction fuel with
  | zero => intro n h1 h2; omega
  | succ f ih =>
    intro n h1 h2
    have hs0 : stripFuel p (f + 1) n
        = if 2 ≤ p ∧ 1 ≤ n ∧ n % p = 0 then
            ((stripFuel p f (n / p)).1 + 1, (stripFuel p f (n / p)).2)
          else (0, n) := rfl
    by_cases hcond : 2 ≤ p ∧ 1 ≤ n ∧ n % p = 0
    · rw [hs0, if_pos hcond]
      have hdvd : p ∣ n := Nat.dvd_of_mod_eq_zero hcond.2.2
      have hq1 : 1 ≤ n / p := Nat.div_pos (Nat.le_of_dvd (by omega) hdvd) (by omega)
      have hq2 : n / p ≤ f := by
        have := Nat.div_lt_self (show 0 < n by omega) (show 1 < p by omega)
        omega
      obtain ⟨ha, hb, hc⟩ := ih (n / p) hq1 hq2
      refine ⟨?_, hb, hc⟩
      have hnp : n = p * (n / p) := (Nat.mul_div_cancel' hdvd).symm
      calc n = p * (n / p) := hnp
        _ = p * (p ^ (stripFuel p f (n / p)).1 * (stripFuel p f (n / p)).2) := by
              rw [← ha]
        _ = p ^ ((stripFuel p f (n / p)).1 + 1) * (stripFuel p f (n / p)).2 := by
              ring
    · rw [hs0, if_neg hcond]
      refine ⟨by simp, ?_, h1⟩
      intro hd
      exact hcond ⟨hp, h1, Nat.mod_eq_zero_of_dvd hd⟩

lemma stripP_spec {p n : ℕ} (hp : 2 ≤ p) (hn : 1 ≤ n) :
    n = p ^ (stripP p n).1 * (stripP p n).2 ∧ ¬ p ∣ (stripP p n).2 ∧
      1 ≤ (stripP p n).2 :=
  stripFuel_spec hp n n hn le_rfl

lemma isDecDen_dvd {d : ℕ} (hd : 1 ≤ d) (h : isDecDen d = true) :
    d ∣ 10 ^ max 1 (decScale d) := by
  obtain ⟨h2a, _, h2c⟩ := stripP_spec (p := 2) (n := d) (by omega) hd
  obtain ⟨h5a, _, _⟩ := stripP_spec (p := 5) (n := (stripP 2 d).2) (by omega) h2c
  unfold isDecDen at h
  rw [beq_iff_eq] at h
  rw [h, mul_one] at h5a
  set a := (stripP 2 d).1
  set b := (stripP 5 (stripP 2 d).2).1
  have hdab : d = 2 ^ a * 5 ^ b := by rw [h2a, h5a]
  set k := max 1 (decScale d) with hk
  have hak : a ≤ k := by
    have : decScale d = max a b := rfl
    omega
  have hbk : b ≤ k := by
    have : decScale d = max a b := rfl
    omega
  have h10 : (10 : ℕ) ^ k = 2 ^ k * 5 ^ k := by
    rw [show (10 : ℕ) = 2 * 5 from rfl, mul_pow]
  rw [hdab, h10]
  exact mul_dvd_mul (pow_dvd_pow 2 hak) (pow_dvd_pow 5 hbk)

/-! ### Date-order lemmas -/

lemma PyDate.ltB_iff {a b : PyDate} : PyDate.ltB a b = true ↔
    (a.year < b.year ∨ (a.year = b.year ∧ (a.month < b.month ∨
      (a.month = b.month ∧ a.day < b.day)))) := by
  simp [PyDate.ltB, Bool.or_eq_true, Bool.and_eq_true, decide_eq_true_eq,
    beq_iff_eq]

lemma PyDate.leB_iff {a b : PyDate} : PyDate.leB a b = true ↔
    (a.year < b.year ∨ (a.year = b.year ∧ (a.month < b.month ∨
      (a.month = b.month ∧ a.day ≤ b.day)))) := by
  simp [PyDate.leB, Bool.or_eq_true, Bool.and_eq_true, decide_eq_true_eq,
    beq_iff_eq]

lemma PyDate.ltB_eq_false_iff {a b : PyDate} :
    PyDate.ltB a b = false ↔ PyDate.leB b a = true := by
  rw [show (PyDate.ltB a b = false) ↔ ¬ (PyDate.ltB a b = true) by simp]
  rw [PyDate.ltB_iff, PyDate.leB_iff]
  omega

lemma PyDate.leB_eq_false_iff {a b : PyDate} :
    PyDate.leB a b = false ↔ PyDate.ltB b a = true := by
  rw [show (PyDate.leB a b = false) ↔ ¬ (PyDate.leB a b = true) by simp]
  rw [PyDate.ltB_iff, PyDate.leB_iff]
  omega

instance : IsTotal Txn dateLE :=
  ⟨fun a b => by
    unfold dateLE
    rw [PyDate.leB_iff, PyDate.leB_iff]
    omega⟩

instance : IsTrans Txn dateLE :=
  ⟨fun a b c hab hbc => by
    unfold dateLE at hab hbc ⊢
    rw [PyDate.leB_iff] at hab hbc ⊢
    omega⟩

/-! ### Sorting lemmas: the sort in add_transaction is by date and stable -/

lemma sorted_pySortByDate (l : List Txn) : List.Sorted dateLE (pySortByDate l) :=
  List.sorted_insertionSort dateLE l

lemma pySortByDate_sorted_eq {l : List Txn} (h : List.Sorted dateLE l) :
    pySortByDate l = l :=
  h.insertionSort_eq

lemma date_eq_iff {a b : PyDate} :
    a = b ↔ (a.year = b.year ∧ a.month = b.month ∧ a.day = b.day) := by
  cases a
  cases b
  simp [PyDate.mk.injEq]

lemma filter_orderedInsert_date (t : Txn) (dd : PyDate) :
    ∀ l : List Txn, (l.orderedInsert dateLE t).filter (fun u => u.date == dd)
      = if t.date = dd then t :: l.filter (fun u => u.date == dd)
        else l.filter (fun u => u.date == dd) := by
  intro l
  induction l with
  | nil =>
    by_cases hd : t.date = dd
    · simp [List.orderedInsert, List.filter_cons, hd]
    · simp [List.orderedInsert, List.filter_cons, hd]
  | cons y ys ih =>
    by_cases hr : dateLE t y
    · rw [List.orderedInsert, if_pos hr]
      by_cases hd : t.date = dd <;> simp [List.filter_cons, hd]
    · rw [List.orderedInsert, if_neg hr]
      rw [List.filter_cons, ih]
      by_cases hd : t.date = dd
      · have hylt : PyDate.ltB y.date t.date = true := by
          have hle : PyDate.leB t.date y.date = false := by
            unfold dateLE at hr
            exact Bool.not_eq_true _ |>.mp hr
          exact PyDate.leB_eq_false_iff.mp hle
        have hyne : ¬ (y.date = dd) := by
          intro he
          have hyt : y.date = t.date := he.trans hd.symm
          rw [hyt] at hylt
          rw [PyDate.ltB_iff] at hylt
          omega
        simp [List.filter_cons, hyne, hd]
      · simp [List.filter_cons, hd]

lemma pySortByDate_filter_date (l : List Txn) (dd : PyDate) :
    (pySortByDate l).filter (fun u => u.date == dd)
      = l.filter (fun u => u.date == dd) := by
  unfold pySortByDate
  induction l with
  | nil => rfl
  | cons t ts ih =>
    rw [List.insertionSort, filter_orderedInsert_date, ih]
    by_cases hd : t.date = dd <;> simp [List.filter_cons, hd]

/-! ### Ledger-state invariants used by the round-trip claim -/

/-- An amount value the program can actually store: parsed floats are never
negative-infinite (rejected by the amount check) and finite ones are exact
decimals with a non-negative value. -/
def amountOk : PyFloat → Prop
  | .finite q => 0 ≤ q ∧ isDecDen q.den = true
  | .inf => True
  | .nan => True
  | .ninf => False

/-- A calendar date as validated by the add_transaction date check. -/
def validDate (d : PyDate) : Prop :=
  1 ≤ d.month ∧ d.month ≤ 12 ∧ 1 ≤ d.day ∧
    d.day ≤ daysInMonth d.year d.month ∧ 1 ≤ d.year ∧ d.year ≤ 9999

/-- A transaction the ledger can hold whose category survives the CSV format:
valid kind, stripped non-empty category without commas or newlines (embedded
commas are the documented limitation of the format), an amount value the
validation admits, and a valid date not after today. -/
def validStored (today : PyDate) (t : Txn) : Prop :=
  (t.type = "income" ∨ t.type = "outcome") ∧
    pyStrip t.category = t.category ∧ t.category ≠ "" ∧
    (∀ c ∈ t.category.data, c ≠ ',' ∧ c ≠ '\n') ∧
    amountOk t.amount ∧ validDate t.date ∧ PyDate.leB t.date today = true

lemma daysInMonth_le_31 (y m : ℕ) : daysInMonth y m ≤ 31 := by
  unfold daysInMonth
  split
  · split <;> omega
  · split <;> omega

/-! ### Round trip of the amount serialization -/

lemma fmtPosQ_spec (q : ℚ) (h0 : 0 ≤ q) (hden : isDecDen q.den = true) :
    ∃ I F : List Char,
      fmtPosQ q = I ++ '.' :: F ∧ I ≠ [] ∧ F ≠ [] ∧
        (∀ c ∈ I, isDigitCh c = true) ∧ (∀ c ∈ F, isDigitCh c = true) ∧
        ((valDigits (I ++ F) : ℚ) / 10 ^ F.length = q) := by
  set k := max 1 (decScale q.den) with hk
  set m := ((q.num * (10 : ℤ) ^ k) / (q.den : ℤ)).toNat with hm
  set total := natPadChars (k + 1) m with htotal
  set i := total.length - k with hi
  have hlen : k + 1 ≤ total.length := by
    rw [htotal, natPadChars_length]
    omega
  refine ⟨total.take i, total.drop i, rfl, ?_, ?_, ?_, ?_, ?_⟩
  · have : (total.take i).length = i := by
      rw [List.length_take]
      omega
    intro hnil
    rw [hnil] at this
    simp at this
    omega
  · have : (total.drop i).length = k := by
      rw [List.length_drop]
      omega
    intro hnil
    rw [hnil] at this
    simp at this
    omega
  · exact fun c hc => natPadChars_digits (htotal ▸ List.mem_of_mem_take hc)
  · exact fun c hc => natPadChars_digits (htotal ▸ List.mem_of_mem_drop hc)
  · have hIF : total.take i ++ total.drop i = total := List.take_append_drop i total
    rw [hIF]
    have hFlen : (total.drop i).length = k := by
      rw [List.length_drop]
      omega
    rw [hFlen, htotal, valDigits_natPadChars]
    -- arithmetic: m / 10^k = q
    have hd1 : 1 ≤ q.den := q.pos
    have hdvd : (q.den : ℕ) ∣ 10 ^ k := hk ▸ isDecDen_dvd hd1 hden
    have hdvdZ : ((q.den : ℕ) : ℤ) ∣ (10 : ℤ) ^ k := by
      have := Int.natCast_dvd_natCast.mpr hdvd
      push_cast at this
      exact this
    have hdvdnum : ((q.den : ℕ) : ℤ) ∣ q.num * (10 : ℤ) ^ k :=
      Dvd.dvd.mul_left hdvdZ q.num
    set M : ℤ := q.num * (10 : ℤ) ^ k / (q.den : ℤ) with hM
    have hMd : M * (q.den : ℤ) = q.num * (10 : ℤ) ^ k := Int.ediv_mul_cancel hdvdnum
    have hnum0 : 0 ≤ q.num := Rat.num_nonneg.mpr h0
    have hM0 : 0 ≤ M := by
      rw [hM]
      apply Int.ediv_nonneg
      · positivity
      · positivity
    have hmq : ((m : ℕ) : ℚ) = (M : ℚ) := by
      have hcg := congrArg (fun z : ℤ => (z : ℚ)) (Int.toNat_of_nonneg hM0)
      rw [hm]
      push_cast at hcg ⊢
      exact hcg
    rw [hmq]
    have hd0 : ((q.den : ℕ) : ℚ) ≠ 0 := by
      have : (0 : ℕ) < q.den := q.pos
      positivity
    have h10 : (10 : ℚ) ^ k ≠ 0 := by positivity
    rw [div_eq_iff h10]
    have hqd : (q.num : ℚ) = q * ((q.den : ℕ) : ℚ) := by
      have hnd := Rat.num_div_den q
      rw [div_eq_iff hd0] at hnd
      exact hnd
    have hcast : (M : ℚ) * ((q.den : ℕ) : ℚ) = (q.num : ℚ) * (10 : ℚ) ^ k := by
      have := congrArg (fun z : ℤ => (z : ℚ)) hMd
      push_cast at this
      exact this
    apply mul_right_cancel₀ hd0
    rw [hcast, hqd]
    ring

lemma digit_or_dot_not_space {c : Char} (h : isDigitCh c = true ∨ c = '.') :
    isSpaceCh c = false := by
  rcases h with h | h
  · exact isSpaceCh_eq_false_of_digit h
  · rw [h]; decide

lemma digit_or_dot_lower {c : Char} (h : isDigitCh c = true ∨ c = '.') :
    lowerCh c = c := by
  rcases h with h | h
  · exact lowerCh_eq_self_of_not_upper (not_upper_of_digit h)
  · rw [h]; decide

lemma digit_or_dot_ne {c x : Char} (h : isDigitCh c = true ∨ c = '.')
    (hx : isDigitCh x = false) (hdot : x ≠ '.') : c ≠ x := by
  rcases h with h | h
  · exact ne_of_digit h hx
  · rw [h]; exact fun he => hdot he.symm

lemma dropWhile_eq_self_of_head {p : Char → Bool} {cs : List Char}
    (h : ∀ c, cs.head? = some c → p c = false) : cs.dropWhile p = cs := by
  cases cs with
  | nil => rfl
  | cons a l =>
    rw [List.dropWhile_cons, h a rfl]
    simp

/-- Stripping is the identity when both end characters are not whitespace. -/
lemma pyStripChars_eq_self_of_ends {cs : List Char}
    (h1 : ∀ c, cs.head? = some c → isSpaceCh c = false)
    (h2 : ∀ c, cs.getLast? = some c → isSpaceCh c = false) :
    pyStripChars cs = cs := by
  unfold pyStripChars
  rw [dropWhile_eq_self_of_head h1]
  rw [@dropWhile_eq_self_of_head isSpaceCh cs.reverse ?hr]
  · exact List.reverse_reverse cs
  case hr =>
    intro c hc
    apply h2
    rw [← List.head?_reverse]
    exact hc

/-- Stripping a list of non-whitespace characters is the identity. -/
lemma pyStripChars_eq_self_of_all {cs : List Char}
    (h : ∀ c ∈ cs, isSpaceCh c = false) : pyStripChars cs = cs := by
  apply pyStripChars_eq_self_of_ends
  · intro c hc
    cases cs with
    | nil => simp at hc
    | cons a l =>
      rw [List.head?_cons, Option.some.injEq] at hc
      exact h c (hc ▸ List.mem_cons_self a l)
  · intro c hc
    have hm : c ∈ cs := by
      have hne : cs ≠ [] := by
        intro he
        rw [he] at hc
        simp at hc
      rw [List.getLast?_eq_getLast cs hne, Option.some.injEq] at hc
      exact hc ▸ List.getLast_mem hne
    exact h c hm

lemma map_lowerCh_eq_self {cs : List Char} (h : ∀ c ∈ cs, lowerCh c = c) :
    cs.map lowerCh = cs := by
  induction cs with
  | nil => rfl
  | cons a l ih =>
    rw [List.map_cons, h a (by simp), ih (fun c hc => h c (by simp [hc]))]

lemma pyFloatOfString_fmtPosQ (q : ℚ) (h0 : 0 ≤ q) (hden : isDecDen q.den = true) :
    pyFloatOfString ⟨fmtPosQ q⟩ = some (.finite q) := by
  obtain ⟨I, F, hfmt, hI, hF, hId, hFd, hval⟩ := fmtPosQ_spec q h0 hden
  have hall : ∀ c ∈ fmtPosQ q, isDigitCh c = true ∨ c = '.' := by
    intro c hc
    rw [hfmt] at hc
    rcases List.mem_append.mp hc with h1 | h2
    · exact Or.inl (hId c h1)
    · rcases List.mem_cons.mp h2 with h3 | h4
      · exact Or.inr h3
      · exact Or.inl (hFd c h4)
  have hstrip : pyStripChars (fmtPosQ q) = fmtPosQ q :=
    pyStripChars_eq_self_of_all (fun c hc => digit_or_dot_not_space (hall c hc))
  have hlower : (fmtPosQ q).map lowerCh = fmtPosQ q :=
    map_lowerCh_eq_self (fun c hc => digit_or_dot_lower (hall c hc))
  unfold pyFloatOfString
  rw [show (⟨fmtPosQ q⟩ : String).data = fmtPosQ q from rfl, hstrip, hlower]
  obtain ⟨c0, I2, rfl⟩ : ∃ c0 I2, I = c0 :: I2 := by
    cases I with
    | nil => exact absurd rfl hI
    | cons a l => exact ⟨a, l, rfl⟩
  have hc0 : isDigitCh c0 = true := hId c0 (by simp)
  rw [hfmt]
  show (if c0 = '+' then parseAbsFloat (I2 ++ '.' :: F)
      else if c0 = '-' then (parseAbsFloat (I2 ++ '.' :: F)).map PyFloat.neg
      else parseAbsFloat (c0 :: (I2 ++ '.' :: F))) = some (.finite q)
  rw [if_neg (ne_of_digit hc0 (by decide)), if_neg (ne_of_digit hc0 (by decide))]
  have hallc : ∀ c ∈ c0 :: (I2 ++ '.' :: F), isDigitCh c = true ∨ c = '.' := by
    intro c hc
    exact hall c (by rw [hfmt]; simpa using hc)
  have hinf : ¬ (c0 :: (I2 ++ '.' :: F) = "inf".data ∨
      c0 :: (I2 ++ '.' :: F) = "infinity".data) := by
    rintro (he | he) <;>
      exact absurd (hallc c0 (by simp))
        (by rw [show c0 = 'i' by simpa using congrArg List.head? he]; decide)
  have hnan : ¬ (c0 :: (I2 ++ '.' :: F) = "nan".data) := by
    intro he
    exact absurd (hallc c0 (by simp))
      (by rw [show c0 = 'n' by simpa using congrArg List.head? he]; decide)
  unfold parseAbsFloat
  rw [if_neg hinf, if_neg hnan]
  have hnoe : 'e' ∉ c0 :: (I2 ++ '.' :: F) := by
    intro hm
    exact absurd rfl (digit_or_dot_ne (hallc 'e' hm) (by decide) (by decide))
  rw [splitOnCh_of_not_mem hnoe]
  show Option.map PyFloat.finite (parseMantissa (c0 :: (I2 ++ '.' :: F))) = _
  have hsplit : splitOnCh '.' (c0 :: (I2 ++ '.' :: F)) = [c0 :: I2, F] := by
    have hdI : '.' ∉ c0 :: I2 := by
      intro hm
      have := hId '.' (by simpa using hm)
      simp [isDigitCh] at this
    have hdF : '.' ∉ F := by
      intro hm
      have := hFd '.' hm
      simp [isDigitCh] at this
    have := @splitOnCh_append '.' (c0 :: I2) F hdI
    rw [splitOnCh_of_not_mem hdF] at this
    simpa using this
  unfold parseMantissa
  rw [hsplit]
  show Option.map PyFloat.finite
      (if (c0 :: I2) ++ F ≠ [] ∧ (∀ c ∈ c0 :: I2, isDigitCh c = true) ∧
          (∀ c ∈ F, isDigitCh c = true) then
        some ((valDigits ((c0 :: I2) ++ F) : ℚ) / 10 ^ F.length)
      else none) = some (.finite q)
  rw [if_pos ⟨by simp, hId, hFd⟩, hval]
  rfl

lemma pyFloat_roundtrip (f : PyFloat) (h : amountOk f) :
    pyFloatOfString (strOfPyFloat f) = some f := by
  cases f with
  | inf => decide
  | nan => decide
  | ninf => exact absurd h (by simp [amountOk])
  | finite q =>
    obtain ⟨h0, hden⟩ := h
    show pyFloatOfString (if q < 0 then ⟨'-' :: fmtPosQ (-q)⟩ else ⟨fmtPosQ q⟩)
        = some (.finite q)
    rw [if_neg (not_lt.mpr h0)]
    exact pyFloatOfString_fmtPosQ q h0 hden

/-! ### Round trip of the date serialization -/

lemma natPadChars_not_dash (w n : ℕ) : ('-' : Char) ∉ natPadChars w n := by
  intro hm
  exact absurd (natPadChars_digits hm) (by decide)

lemma natPadChars_ne_nil {w n : ℕ} (h : 1 ≤ w) : natPadChars w n ≠ [] := by
  intro he
  have hl := natPadChars_length w n
  rw [he] at hl
  simp at hl
  omega

lemma parseDateDMY_eval {s : String} {dd mm yy : List Char}
    (hs : splitOnCh '-' s.data = [dd, mm, yy]) :
    parseDateDMY s
      = (if (∀ c ∈ dd, isDigitCh c = true) ∧ 1 ≤ dd.length ∧ dd.length ≤ 2 ∧
            1 ≤ valDigits dd ∧ valDigits dd ≤ 31 ∧
            (∀ c ∈ mm, isDigitCh c = true) ∧ 1 ≤ mm.length ∧ mm.length ≤ 2 ∧
            1 ≤ valDigits mm ∧ valDigits mm ≤ 12 ∧
            (∀ c ∈ yy, isDigitCh c = true) ∧ yy.length = 4 ∧
            1 ≤ valDigits yy ∧
            valDigits dd ≤ daysInMonth (valDigits yy) (valDigits mm)
          then some ⟨valDigits yy, valDigits mm, valDigits dd⟩ else none) := by
  unfold parseDateDMY
  rw [hs]

lemma parseDate_fmtDate (d : PyDate) (h : validDate d) :
    parseDateDMY (fmtDateDMY d) = some d := by
  obtain ⟨h1, h2, h3, h4, h5, h6⟩ := h
  have hday31 : d.day ≤ 31 := le_trans h4 (daysInMonth_le_31 _ _)
  have hshape : fmtDateDMYChars d
      = natPadChars 2 d.day
        ++ '-' :: (natPadChars 2 d.month ++ '-' :: natPadChars 4 d.year) := by
    unfold fmtDateDMYChars
    simp [List.append_assoc]
  have hsplit : splitOnCh '-' (fmtDateDMY d).data
      = [natPadChars 2 d.day, natPadChars 2 d.month, natPadChars 4 d.year] := by
    rw [show (fmtDateDMY d).data = fmtDateDMYChars d from rfl, hshape,
      splitOnCh_append _ (natPadChars_not_dash 2 d.day),
      splitOnCh_append _ (natPadChars_not_dash 2 d.month),
      splitOnCh_of_not_mem (natPadChars_not_dash 4 d.year)]
  have hld : (natPadChars 2 d.day).length = 2 := natPadChars_length_eq (by omega)
  have hlm : (natPadChars 2 d.month).length = 2 := natPadChars_length_eq (by omega)
  have hly : (natPadChars 4 d.year).length = 4 := natPadChars_length_eq (by omega)
  have hcond : (∀ c ∈ natPadChars 2 d.day, isDigitCh c = true) ∧
      1 ≤ (natPadChars 2 d.day).length ∧ (natPadChars 2 d.day).length ≤ 2 ∧
      1 ≤ valDigits (natPadChars 2 d.day) ∧ valDigits (natPadChars 2 d.day) ≤ 31 ∧
      (∀ c ∈ natPadChars 2 d.month, isDigitCh c = true) ∧
      1 ≤ (natPadChars 2 d.month).length ∧ (natPadChars 2 d.month).length ≤ 2 ∧
      1 ≤ valDigits (natPadChars 2 d.month) ∧
      valDigits (natPadChars 2 d.month) ≤ 12 ∧
      (∀ c ∈ natPadChars 4 d.year, isDigitCh c = true) ∧
      (natPadChars 4 d.year).length = 4 ∧
      1 ≤ valDigits (natPadChars 4 d.year) ∧
      valDigits (natPadChars 2 d.day)
        ≤ daysInMonth (valDigits (natPadChars 4 d.year))
            (valDigits (natPadChars 2 d.month)) := by
    have e1 : valDigits (natPadChars 2 d.day) = d.day := valDigits_natPadChars _ _
    have e2 : valDigits (natPadChars 2 d.month) = d.month := valDigits_natPadChars _ _
    have e3 : valDigits (natPadChars 4 d.year) = d.year := valDigits_natPadChars _ _
    exact ⟨fun c hc2 => natPadChars_digits hc2, by omega, by omega, by omega,
      by omega, fun c hc2 => natPadChars_digits hc2, by omega, by omega, by omega,
      by omega, fun c hc2 => natPadChars_digits hc2, hly, by omega,
      by rw [e1, e2, e3]; exact h4⟩
  rw [parseDateDMY_eval hsplit, if_pos hcond]
  simp [valDigits_natPadChars]

/-! ### The written line of one stored transaction parses back to it -/

lemma fmtPosQ_chars (q : ℚ) (h0 : 0 ≤ q) (hden : isDecDen q.den = true) :
    fmtPosQ q ≠ [] ∧ ∀ c ∈ fmtPosQ q, isDigitCh c = true ∨ c = '.' := by
  obtain ⟨I, F, hfmt, hI, hF, hId, hFd, _⟩ := fmtPosQ_spec q h0 hden
  constructor
  · rw [hfmt]
    simp
  · intro c hc
    rw [hfmt] at hc
    rcases List.mem_append.mp hc with h1 | h2
    · exact Or.inl (hId c h1)
    · rcases List.mem_cons.mp h2 with h3 | h4
      · exact Or.inr h3
      · exact Or.inl (hFd c h4)

lemma strOfPyFloat_data_finite {q : ℚ} (h0 : 0 ≤ q) :
    (strOfPyFloat (.finite q)).data = fmtPosQ q := by
  show (if q < 0 then (⟨'-' :: fmtPosQ (-q)⟩ : String) else ⟨fmtPosQ q⟩).data
      = fmtPosQ q
  rw [if_neg (not_lt.mpr h0)]

lemma strOfPyFloat_chars {f : PyFloat} (h : amountOk f) :
    (strOfPyFloat f).data ≠ [] ∧
      ∀ c ∈ (strOfPyFloat f).data, isSpaceCh c = false ∧ c ≠ ',' := by
  cases f with
  | inf => exact ⟨by decide, by decide⟩
  | nan => exact ⟨by decide, by decide⟩
  | ninf => exact absurd h (by simp [amountOk])
  | finite q =>
    obtain ⟨h0, hden⟩ := h
    obtain ⟨hne, hall⟩ := fmtPosQ_chars q h0 hden
    rw [strOfPyFloat_data_finite h0]
    refine ⟨hne, fun c hc => ?_⟩
    exact ⟨digit_or_dot_not_space (hall c hc),
      digit_or_dot_ne (hall c hc) (by decide) (by decide)⟩

lemma fmtDateDMYChars_chars (d : PyDate) :
    ∀ c ∈ fmtDateDMYChars d, isDigitCh c = true ∨ c = '-' := by
  intro c hc
  have hm : c ∈ natPadChars 2 d.day ∨ c = '-' ∨ c ∈ natPadChars 2 d.month ∨
      c ∈ natPadChars 4 d.year := by
    unfold fmtDateDMYChars at hc
    simp only [List.mem_append, List.mem_cons] at hc
    tauto
  rcases hm with h | h | h | h
  · exact Or.inl (natPadChars_digits h)
  · exact Or.inr h
  · exact Or.inl (natPadChars_digits h)
  · exact Or.inl (natPadChars_digits h)

lemma digit_or_dash_not_space {c : Char} (h : isDigitCh c = true ∨ c = '-') :
    isSpaceCh c = false := by
  rcases h with h | h
  · exact isSpaceCh_eq_false_of_digit h
  · rw [h]; decide

lemma saveLineChars_shape (t : Txn) :
    saveLineChars t = t.type.data ++ ',' :: ((strOfPyFloat t.amount).data
      ++ ',' :: (t.category.data ++ ',' :: (savePad ++ fmtDateDMYChars t.date))) := by
  unfold saveLineChars
  simp [List.cons_append, List.append_assoc]

lemma getLast?_append_right {A B : List Char} (h : B ≠ []) :
    (A ++ B).getLast? = B.getLast? := by
  rw [List.getLast?_append]
  cases hB : B.getLast? with
  | none => exact absurd (List.getLast?_eq_none_iff.mp hB) h
  | some x => simp

lemma getLast?_cons_right {c : Char} {L : List Char} (h : L ≠ []) :
    (c :: L).getLast? = L.getLast? := by
  rw [show c :: L = [c] ++ L from rfl, getLast?_append_right h]

lemma nonspace_of_getLast?_of_all {L : List Char} {c : Char}
    (h : ∀ x ∈ L, isSpaceCh x = false) (hc : L.getLast? = some c) :
    isSpaceCh c = false := by
  have hne : L ≠ [] := by
    intro he
    rw [he] at hc
    simp at hc
  rw [List.getLast?_eq_getLast L hne, Option.some.injEq] at hc
  exact h c (hc ▸ List.getLast_mem hne)

lemma fmtDateDMYChars_ne_nil (d : PyDate) : fmtDateDMYChars d ≠ [] := by
  unfold fmtDateDMYChars
  simp

lemma pyStripChars_saveLine (t : Txn)
    (hty : t.type = "income" ∨ t.type = "outcome") :
    pyStripChars (saveLineChars t) = saveLineChars t := by
  apply pyStripChars_eq_self_of_ends
  · intro c hc
    rw [saveLineChars_shape] at hc
    rcases hty with h | h <;> rw [h] at hc
    · have hc2 : some 'i' = some c := hc
      rw [Option.some.injEq] at hc2
      rw [← hc2]; decide
    · have hc2 : some 'o' = some c := hc
      rw [Option.some.injEq] at hc2
      rw [← hc2]; decide
  · intro c hc
    have hlast : (saveLineChars t).getLast?
        = (natPadChars 4 t.date.year).getLast? := by
      rw [saveLineChars_shape]
      rw [getLast?_append_right (by simp)]
      rw [getLast?_cons_right (by simp)]
      rw [getLast?_append_right (by simp)]
      rw [getLast?_cons_right (by simp)]
      rw [getLast?_append_right (by simp)]
      rw [getLast?_cons_right (by simp [savePad])]
      rw [getLast?_append_right (fmtDateDMYChars_ne_nil t.date)]
      unfold fmtDateDMYChars
      rw [getLast?_append_right (by simp)]
      rw [getLast?_cons_right (natPadChars_ne_nil (by omega))]
    rw [hlast] at hc
    exact nonspace_of_getLast?_of_all
      (fun x hx => isSpaceCh_eq_false_of_digit (natPadChars_digits hx)) hc

lemma splitOnCh_saveLine (t : Txn)
    (hT : (',' : Char) ∉ t.type.data)
    (hA : (',' : Char) ∉ (strOfPyFloat t.amount).data)
    (hC : (',' : Char) ∉ t.category.data)
    (hD : (',' : Char) ∉ savePad ++ fmtDateDMYChars t.date) :
    splitOnCh ',' (saveLineChars t)
      = [t.type.data, (strOfPyFloat t.amount).data, t.category.data,
          savePad ++ fmtDateDMYChars t.date] := by
  rw [saveLineChars_shape, splitOnCh_append _ hT, splitOnCh_append _ hA,
    splitOnCh_append _ hC, splitOnCh_of_not_mem hD]

lemma validateAmount_saveLine {f : PyFloat} (h : amountOk f) :
    validateAmount ⟨(strOfPyFloat f).data⟩ = .ok f := by
  unfold validateAmount
  have hstr : pyStrip ⟨(strOfPyFloat f).data⟩ = strOfPyFloat f := by
    show (⟨pyStripChars (strOfPyFloat f).data⟩ : String) = strOfPyFloat f
    rw [pyStripChars_eq_self_of_all (fun c hc => ((strOfPyFloat_chars h).2 c hc).1)]
  rw [hstr, pyFloat_roundtrip f h]
  have hlt : pyLt0 f = false := by
    cases f with
    | inf => rfl
    | nan => rfl
    | ninf => exact absurd h (by simp [amountOk])
    | finite q =>
      simp only [pyLt0, decide_eq_false_iff_not]
      exact not_lt.mpr h.1
  show (if pyLt0 f = true then Except.error AddError.invalidAmount else .ok f)
      = .ok f
  rw [hlt]
  rfl

lemma validateDate_saveLine {today : PyDate} {d : PyDate} (hd : validDate d)
    (hle : PyDate.leB d today = true) :
    validateDate ⟨fmtDateDMYChars d⟩ today = .ok d := by
  unfold validateDate
  rw [show (⟨fmtDateDMYChars d⟩ : String) = fmtDateDMY d from rfl,
    parseDate_fmtDate d hd]
  show (if PyDate.ltB today d = true then Except.error AddError.invalidDate
      else .ok d) = .ok d
  rw [PyDate.ltB_eq_false_iff.mpr hle]
  rfl

lemma validateTxn_saveLine (today : PyDate) (t : Txn) (hv : validStored today t) :
    validateTxn today ⟨t.type.data⟩ ⟨(strOfPyFloat t.amount).data⟩
      ⟨t.category.data⟩ ⟨fmtDateDMYChars t.date⟩ = .ok t := by
  obtain ⟨hty, hcs, hcne, hcc, ham, hdate, hle⟩ := hv
  have htt : pyStrip (⟨t.type.data⟩ : String) = t.type := by
    show pyStrip t.type = t.type
    rcases hty with h | h <;> rw [h] <;> decide
  unfold validateTxn
  rw [htt]
  rw [if_neg (not_not_intro hty)]
  rw [show (⟨t.category.data⟩ : String) = t.category from rfl, hcs,
    if_neg hcne]
  rw [validateAmount_saveLine ham]
  show (match validateDate ⟨fmtDateDMYChars t.date⟩ today with
    | .error e => Except.error e
    | .ok dt => Except.ok (⟨t.type, t.amount, t.category, dt⟩ : Txn))
      = .ok t
  rw [validateDate_saveLine hdate hle]

lemma parseLine_saveLine (today : PyDate) (t : Txn) (hv : validStored today t) :
    parseLine today (saveLine t) = .ok (some t) := by
  have hvv := hv
  obtain ⟨hty, hcs, hcne, hcc, ham, hdate, hle⟩ := hvv
  have hTcomma : (',' : Char) ∉ t.type.data := by
    rcases hty with h | h <;> rw [h] <;> decide
  have hAchars := strOfPyFloat_chars ham
  have hAcomma : (',' : Char) ∉ (strOfPyFloat t.amount).data :=
    fun hm => (hAchars.2 ',' hm).2 rfl
  have hCcomma : (',' : Char) ∉ t.category.data := fun hm => (hcc ',' hm).1 rfl
  have hDchars := fmtDateDMYChars_chars t.date
  have hDcomma : (',' : Char) ∉ savePad ++ fmtDateDMYChars t.date := by
    intro hm
    rcases List.mem_append.mp hm with h1 | h2
    · unfold savePad at h1
      exact absurd (List.eq_of_mem_replicate h1) (by decide)
    · rcases hDchars ',' h2 with h3 | h3 <;> exact absurd h3 (by decide)
  have hne_line : ¬ (saveLineChars t = []) := by
    rcases hty with h | h <;> rw [saveLineChars_shape, h] <;> intro he <;>
      simp at he
  unfold parseLine saveLine
  rw [show (⟨saveLineChars t⟩ : String).data = saveLineChars t from rfl]
  rw [pyStripChars_saveLine t hty]
  rw [if_neg hne_line]
  rw [splitOnCh_saveLine t hTcomma hAcomma hCcomma hDcomma]
  have hsT : pyStripChars t.type.data = t.type.data := by
    rcases hty with h | h <;> rw [h] <;> decide
  have hsA : pyStripChars (strOfPyFloat t.amount).data
      = (strOfPyFloat t.amount).data :=
    pyStripChars_eq_self_of_all (fun c hc => (hAchars.2 c hc).1)
  have hsC : pyStripChars t.category.data = t.category.data :=
    congrArg String.data hcs
  have hsD : pyStripChars (savePad ++ fmtDateDMYChars t.date)
      = fmtDateDMYChars t.date := by
    unfold savePad
    rw [pyStripChars_replicate_space]
    exact pyStripChars_eq_self_of_all
      (fun c hc => digit_or_dash_not_space (hDchars c hc))
  rw [List.map_cons, List.map_cons, List.map_cons, List.map_cons, List.map_nil]
  rw [hsT, hsA, hsC, hsD]
  show (match validateTxn today ⟨t.type.data⟩ ⟨(strOfPyFloat t.amount).data⟩
      ⟨t.category.data⟩ ⟨fmtDateDMYChars t.date⟩ with
    | .ok tx => Except.ok (some tx)
    | .error e => Except.error (LoadError.add e)) = .ok (some t)
  rw [validateTxn_saveLine today t hv]

/-! ### Loading a saved sorted ledger reproduces it -/

lemma load_save_aux (today : PyDate) :
    ∀ (rest acc : List Txn), List.Sorted dateLE (acc ++ rest) →
      (∀ t ∈ rest, validStored today t) →
      load_transactions acc today (save_transactions rest) = (acc ++ rest, none) := by
  intro rest
  induction rest with
  | nil =>
    intro acc _ _
    simp [save_transactions, load_transactions]
  | cons t rest2 ih =>
    intro acc hsorted hval
    have hvt : validStored today t := hval t (List.mem_cons_self t rest2)
    have hsort_acc_t : List.Sorted dateLE (acc ++ [t]) := by
      apply List.Pairwise.sublist _ hsorted
      exact List.Sublist.append_left (List.cons_sublist_cons.mpr
        (List.nil_sublist rest2)) acc
    show load_transactions acc today (saveLine t :: save_transactions rest2)
        = (acc ++ t :: rest2, none)
    unfold load_transactions
    have hproc : processLine acc today (saveLine t)
        = .ok (pySortByDate (acc ++ [t])) := by
      unfold processLine
      rw [parseLine_saveLine today t hvt]
    rw [hproc]
    have hassoc : (acc ++ [t]) ++ rest2 = acc ++ t :: rest2 := by simp
    show load_transactions (pySortByDate (acc ++ [t])) today
        (save_transactions rest2) = (acc ++ t :: rest2, none)
    rw [pySortByDate_sorted_eq hsort_acc_t]
    rw [ih (acc ++ [t]) (by rw [hassoc]; exact hsorted)
      (fun u hu => hval u (List.mem_cons_of_mem t hu))]
    rw [hassoc]

/-! ### The load loop stops at the first malformed line, keeping earlier
additions -/

lemma load_transactions_nil (txns : List Txn) (today : PyDate) :
    load_transactions txns today [] = (txns, none) := rfl

lemma load_transactions_cons (txns : List Txn) (today : PyDate) (row : String)
    (rest : List String) :
    load_transactions txns today (row :: rest)
      = match processLine txns today row with
        | .ok txns2 => load_transactions txns2 today rest
        | .error e => (txns, some e) := rfl

lemma processLine_cases (txns : List Txn) (today : PyDate) (row : String) :
    (lineOk today row = true ∧ ∃ l, processLine txns today row = .ok l)
      ∨ (lineOk today row = false ∧ ∃ e, processLine txns today row = .error e) := by
  unfold processLine lineOk
  cases hp : parseLine today row with
  | ok v => cases v <;> simp
  | error e => simp

lemma load_stops_at_bad (today : PyDate) :
    ∀ (pre : List String) (txns : List Txn) (bad : String) (rest : List String),
      (∀ r ∈ pre, lineOk today r = true) → lineOk today bad = false →
      (load_transactions txns today (pre ++ bad :: rest)).2.isSome = true ∧
        (load_transactions txns today (pre ++ bad :: rest)).1
          = (load_transactions txns today pre).1 := by
  intro pre
  induction pre with
  | nil =>
    intro txns bad rest _ hbad
    rcases processLine_cases txns today bad with ⟨hok, _⟩ | ⟨_, e, he⟩
    · rw [hok] at hbad
      cases hbad
    · rw [List.nil_append, load_transactions_cons, he]
      exact ⟨rfl, rfl⟩
  | cons p pre2 ih =>
    intro txns bad rest hpre hbad
    rcases processLine_cases txns today p with ⟨_, l, hl⟩ | ⟨hbadp, _⟩
    · rw [List.cons_append, load_transactions_cons, hl,
        load_transactions_cons txns today p pre2, hl]
      exact ih l bad rest (fun r hr => hpre r (List.mem_cons_of_mem p hr)) hbad
    · rw [hpre p (List.mem_cons_self p pre2)] at hbadp
      cases hbadp

/-! ### Decomposition of a successful add -/

lemma add_transaction_ok {txns : List Txn} {today : PyDate}
    {k a c ds : String} {l2 : List Txn}
    (h : add_transaction txns today k a c ds = .ok l2) :
    ∃ t, validateTxn today k a c ds = .ok t ∧ l2 = pySortByDate (txns ++ [t]) := by
  unfold add_transaction at h
  cases hv : validateTxn today k a c ds with
  | ok t =>
    rw [hv] at h
    simp only [Except.map] at h
    injection h with h2
    exact ⟨t, rfl, h2.symm⟩
  | error e =>
    rw [hv] at h
    simp [Except.map] at h

/-! ### Evaluation lemmas for the validation steps -/

lemma validateAmount_eval_some {s : String} {f : PyFloat}
    (hp : pyFloatOfString (pyStrip s) = some f) :
    validateAmount s = if pyLt0 f then .error .invalidAmount else .ok f := by
  unfold validateAmount
  rw [hp]

lemma validateAmount_eval_none {s : String}
    (hp : pyFloatOfString (pyStrip s) = none) :
    validateAmount s = .error .invalidAmount := by
  unfold validateAmount
  rw [hp]

lemma validateDate_eval_some {s : String} {today d2 : PyDate}
    (hp : parseDateDMY s = some d2) :
    validateDate s today
      = if PyDate.ltB today d2 then .error .invalidDate else .ok d2 := by
  unfold validateDate
  rw [hp]

lemma validateDate_eval_none {s : String} {today : PyDate}
    (hp : parseDateDMY s = none) :
    validateDate s today = .error .invalidDate := by
  unfold validateDate
  rw [hp]

/-! ### Characterization of the lenient strptime pattern -/

lemma parseDateDMY_some {s : String} {d : PyDate} :
    parseDateDMY s = some d ↔
      ∃ D M Y : List Char, splitOnCh '-' s.data = [D, M, Y] ∧
        (∀ c ∈ D, isDigitCh c = true) ∧ 1 ≤ D.length ∧ D.length ≤ 2 ∧
        1 ≤ valDigits D ∧ valDigits D ≤ 31 ∧
        (∀ c ∈ M, isDigitCh c = true) ∧ 1 ≤ M.length ∧ M.length ≤ 2 ∧
        1 ≤ valDigits M ∧ valDigits M ≤ 12 ∧
        (∀ c ∈ Y, isDigitCh c = true) ∧ Y.length = 4 ∧ 1 ≤ valDigits Y ∧
        valDigits D ≤ daysInMonth (valDigits Y) (valDigits M) ∧
        d = ⟨valDigits Y, valDigits M, valDigits D⟩ := by
  constructor
  · intro h
    rcases hsp : splitOnCh '-' s.data with _ | ⟨D, _ | ⟨M, _ | ⟨Y, _ | ⟨w, ws⟩⟩⟩⟩
    · unfold parseDateDMY at h
      rw [hsp] at h
      simp at h
    · unfold parseDateDMY at h
      rw [hsp] at h
      simp at h
    · unfold parseDateDMY at h
      rw [hsp] at h
      simp at h
    · rw [parseDateDMY_eval hsp] at h
      split at h
      · next hc =>
        obtain ⟨hc1, hc2, hc3, hc4, hc5, hc6, hc7, hc8, hc9, hc10, hc11, hc12,
          hc13, hc14⟩ := hc
        injection h with h2
        exact ⟨D, M, Y, rfl, hc1, hc2, hc3, hc4, hc5, hc6, hc7, hc8, hc9, hc10,
          hc11, hc12, hc13, hc14, h2.symm⟩
      · cases h
    · unfold parseDateDMY at h
      rw [hsp] at h
      simp at h
  · rintro ⟨D, M, Y, hsp, hc1, hc2, hc3, hc4, hc5, hc6, hc7, hc8, hc9, hc10,
      hc11, hc12, hc13, hc14, hd⟩
    rw [parseDateDMY_eval hsp,
      if_pos ⟨hc1, hc2, hc3, hc4, hc5, hc6, hc7, hc8, hc9, hc10, hc11, hc12,
        hc13, hc14⟩, hd]

/-! ### The monthly view only ever selects a sub-list of the ledger -/

lemma view_monthly_eval_some {txns : List Txn} {monthIn yearIn : String}
    {today : PyDate} {m y : ℤ}
    (hm : pyIntChars (pyStripChars monthIn.data) = some m)
    (hy : pyIntChars (pyStripChars yearIn.data) = some y) :
    view_monthly_summary txns monthIn yearIn today
      = if 12 < m ∨ m < 1 ∨ (today.year : ℤ) < y then .error "Invalid date values."
        else .ok (monthly_transactions txns monthIn yearIn,
          sumIncome (monthly_transactions txns monthIn yearIn),
          sumOutcome (monthly_transactions txns monthIn yearIn)) := by
  unfold view_monthly_summary
  rw [hm, hy]

lemma view_monthly_ok_sublist {txns : List Txn} {monthIn yearIn : String}
    {today : PyDate} {r : List Txn × PyFloat × PyFloat}
    (h : view_monthly_summary txns monthIn yearIn today = .ok r) :
    r.1.Sublist txns := by
  cases hm : pyIntChars (pyStripChars monthIn.data) with
  | none =>
    unfold view_monthly_summary at h
    rw [hm] at h
    simp at h
  | some m =>
    cases hy : pyIntChars (pyStripChars yearIn.data) with
    | none =>
      unfold view_monthly_summary at h
      rw [hm, hy] at h
      simp at h
    | some y =>
      rw [view_monthly_eval_some hm hy] at h
      split at h
      · cases h
      · injection h with h2
        rw [← h2]
        exact List.filter_sublist txns

/-! ## Claim theorems -/

/-- Claim C1, counterexample: loading a source whose first line is valid and
whose second line is malformed fails, yet afterwards the in-memory sequence
holds the transaction from the first line — the claim that no transaction
from the source survives a failed Load is false on the code. -/
theorem C1_counterexample :
    (load_transactions [] ⟨2026, 10, 12⟩
        ["income,1,food,01-01-2024", "garbage"]).2.isSome = true
      ∧ (load_transactions [] ⟨2026, 10, 12⟩
          ["income,1,food,01-01-2024", "garbage"]).1
        = [⟨"income", .finite 1, "food", ⟨2024, 1, 1⟩⟩] := by
  constructor
  · decide
  · decide

/-- Claim C1, amended: Load raises at the first malformed line and adds
nothing from that line onward, but the in-memory sequence keeps everything
added from the valid lines before it (a partial ledger): the state after the
failed load equals the state after loading just the good prefix. -/
theorem C1_load_aborts_with_partial_state (today : PyDate) (txns : List Txn)
    (pre : List String) (bad : String) (rest : List String)
    (hpre : ∀ r ∈ pre, lineOk today r = true)
    (hbad : lineOk today bad = false) :
    (load_transactions txns today (pre ++ bad :: rest)).2.isSome = true ∧
      (load_transactions txns today (pre ++ bad :: rest)).1
        = (load_transactions txns today pre).1 :=
  load_stops_at_bad today pre txns bad rest hpre hbad

/-- Claim C1, witness: the amended statement at a one-good-line, one-bad-line
source. -/
theorem C1_witness :
    (load_transactions [] ⟨2026, 10, 12⟩
        (["income,1,food,01-01-2024"] ++ "garbage" :: [])).2.isSome = true ∧
      (load_transactions [] ⟨2026, 10, 12⟩
          (["income,1,food,01-01-2024"] ++ "garbage" :: [])).1
        = (load_transactions [] ⟨2026, 10, 12⟩ ["income,1,food,01-01-2024"]).1 :=
  C1_load_aborts_with_partial_state ⟨2026, 10, 12⟩ [] ["income,1,food,01-01-2024"]
    "garbage" [] (by decide) (by decide)

/-- Claim C2, counterexample: a reachable ledger state breaks the round
trip.  A category containing a comma is accepted by Add, but its saved line
splits into five fields, so the reload fails and reproduces nothing. -/
theorem C2_counterexample :
    add_transaction [] ⟨2026, 10, 12⟩ "income" "1" "a,b" "01-01-2024"
        = .ok [⟨"income", .finite 1, "a,b", ⟨2024, 1, 1⟩⟩]
      ∧ (load_transactions [] ⟨2026, 10, 12⟩
          (save_transactions [⟨"income", .finite 1, "a,b", ⟨2024, 1, 1⟩⟩])).2
        = some .unpack
      ∧ (load_transactions [] ⟨2026, 10, 12⟩
          (save_transactions [⟨"income", .finite 1, "a,b", ⟨2024, 1, 1⟩⟩])).1
        = [] := by
  refine ⟨by decide, by decide, by decide⟩

/-- Claim C2, amended: for every ledger state satisfying the store's
invariants whose categories contain no comma (the documented limitation of
the unquoted CSV format) — i.e. sorted by date, kinds valid, categories
stripped, non-empty, comma- and newline-free, amounts as the validation
stores them, dates valid and not after the current date — saving and then
loading into an empty list reproduces the same sequence exactly, with no
error. -/
theorem C2_save_load_roundtrip (today : PyDate) (txns : List Txn)
    (hs : List.Sorted dateLE txns) (hv : ∀ t ∈ txns, validStored today t) :
    load_transactions [] today (save_transactions txns) = (txns, none) := by
  have h := load_save_aux today txns [] (by simpa using hs) hv
  simpa using h

/-- Claim C2, witness: the round trip on a concrete two-transaction ledger
with an integral and a fractional amount. -/
theorem C2_witness :
    load_transactions [] ⟨2026, 10, 12⟩
        (save_transactions [⟨"income", .finite 1, "food", ⟨2024, 1, 1⟩⟩,
          ⟨"outcome", .finite 40, "rent", ⟨2024, 1, 2⟩⟩])
      = ([⟨"income", .finite 1, "food", ⟨2024, 1, 1⟩⟩,
          ⟨"outcome", .finite 40, "rent", ⟨2024, 1, 2⟩⟩], none) := by
  apply C2_save_load_roundtrip
  · decide
  · intro t ht
    simp only [List.mem_cons, List.not_mem_nil, or_false] at ht
    rcases ht with rfl | rfl
    · refine ⟨Or.inl rfl, by decide, by decide, by decide, ?_, ?_, by decide⟩
      · exact ⟨by norm_num, by decide⟩
      · unfold validDate
        decide
    · refine ⟨Or.inr rfl, by decide, by decide, by decide, ?_, ?_, by decide⟩
      · exact ⟨by norm_num, by decide⟩
      · unfold validDate
        decide

/-- Claim C3 (confirmed): after every successful Add the resulting sequence
is sorted non-decreasing by date, and it is the stable sort of the previous
sequence with the new transaction appended: for every date, the transactions
of that date appear exactly in their previous relative order with the new
one last, so equal dates keep their relative insertion order across any
history of adds. -/
theorem C3_add_sorted_stable (txns : List Txn) (today : PyDate)
    (k a c ds : String) (l2 : List Txn)
    (h : add_transaction txns today k a c ds = .ok l2) :
    List.Sorted dateLE l2 ∧
      ∃ t : Txn, l2 = pySortByDate (txns ++ [t]) ∧
        ∀ dd : PyDate, l2.filter (fun u => u.date == dd)
          = (txns ++ [t]).filter (fun u => u.date == dd) := by
  obtain ⟨t, _, hl⟩ := add_transaction_ok h
  subst hl
  exact ⟨sorted_pySortByDate _, t, rfl,
    fun dd => pySortByDate_filter_date _ dd⟩

/-- Claim C3, witness: the statement at a concrete successful add into the
empty ledger. -/
theorem C3_witness :
    List.Sorted dateLE [(⟨"income", .finite 1, "food", ⟨2024, 1, 1⟩⟩ : Txn)] ∧
      ∃ t : Txn, [(⟨"income", .finite 1, "food", ⟨2024, 1, 1⟩⟩ : Txn)]
          = pySortByDate ([] ++ [t]) ∧
        ∀ dd : PyDate,
          [(⟨"income", .finite 1, "food", ⟨2024, 1, 1⟩⟩ : Txn)].filter
              (fun u => u.date == dd)
            = ([] ++ [t]).filter (fun u => u.date == dd) :=
  C3_add_sorted_stable [] ⟨2026, 10, 12⟩ "income" "1" "food" "01-01-2024"
    [⟨"income", .finite 1, "food", ⟨2024, 1, 1⟩⟩] (by decide)

/-- Claim C4, counterexample: the store does not lower-case categories.  A
transaction added (or loaded) with category "Food" is stored with its
capital letter, and CategorySummary with the same text (lower-cased to
"food" on input) selects nothing, although the stored category is the same
string up to case. -/
theorem C4_counterexample :
    add_transaction [] ⟨2026, 10, 12⟩ "income" "1" "Food" "01-01-2024"
        = .ok [⟨"income", .finite 1, "Food", ⟨2024, 1, 1⟩⟩]
      ∧ load_transactions [] ⟨2026, 10, 12⟩ ["income,1,Food,01-01-2024"]
        = ([⟨"income", .finite 1, "Food", ⟨2024, 1, 1⟩⟩], none)
      ∧ ("Food" : String).data.map lowerCh ≠ ("Food" : String).data
      ∧ (filter_by_category [⟨"income", .finite 1, "Food", ⟨2024, 1, 1⟩⟩]
          "Food").1 = [] := by
  refine ⟨by decide, by decide, by decide, by decide⟩

/-- Claim C4, amended: the store keeps categories as given (stripped, not
case-normalized; only the CLI prompt lower-cases direct Add input, and Load
does not).  CategorySummary lower-cases and strips its input and selects
exactly the transactions whose stored category equals that string; hence
every selected transaction's category is free of upper-case letters, and a
category stored with an upper-case letter is selected by no input. -/
theorem C4_category_filter_exact (txns : List Txn) (raw : String) (t : Txn)
    (h : t ∈ (filter_by_category txns raw).1) :
    t ∈ txns ∧ t.category = (⟨pyStripChars (raw.data.map lowerCh)⟩ : String) ∧
      ∀ c ∈ t.category.data, isUpperCh c = false := by
  have h2 : t ∈ category_transactions txns raw := h
  unfold category_transactions at h2
  rw [List.mem_filter] at h2
  obtain ⟨ht, hb⟩ := h2
  rw [beq_iff_eq] at hb
  refine ⟨ht, hb, ?_⟩
  intro c hc
  rw [hb] at hc
  have hc3 : c ∈ raw.data.map lowerCh := mem_of_mem_pyStripChars hc
  obtain ⟨c0, _, rfl⟩ := List.mem_map.mp hc3
  exact isUpperCh_lowerCh c0

/-- Claim C4, witness: the amended statement at a matching lower-case
query. -/
theorem C4_witness :
    (⟨"income", .finite 1, "food", ⟨2024, 1, 1⟩⟩ : Txn)
        ∈ [(⟨"income", .finite 1, "food", ⟨2024, 1, 1⟩⟩ : Txn)] ∧
      (⟨"income", .finite 1, "food", ⟨2024, 1, 1⟩⟩ : Txn).category
        = (⟨pyStripChars (("food" : String).data.map lowerCh)⟩ : String) ∧
      ∀ c ∈ (⟨"income", .finite 1, "food", ⟨2024, 1, 1⟩⟩ : Txn).category.data,
        isUpperCh c = false :=
  C4_category_filter_exact [⟨"income", .finite 1, "food", ⟨2024, 1, 1⟩⟩]
    "food" ⟨"income", .finite 1, "food", ⟨2024, 1, 1⟩⟩ (by decide)

/-- Claim C5 (code bug): the month input "001" denotes the integer 1, in
range 1..12, and the year input "2024" is not after the current year, and
the ledger holds a transaction of calendar month 1 and year 2024 — yet
MonthSummary selects nothing, because the regex frame zero-fills "001" to
width 2 (leaving it three digits) and the pattern matches no formatted
date.  The spec requires selection by calendar month and year equality
regardless of zero-padding. -/
theorem C5_zero_padded_month_input_selects_nothing :
    pyIntOfString "001" = some 1 ∧ pyIntOfString "2024" = some 2024
      ∧ (⟨2024, 1, 15⟩ : PyDate).month = 1
      ∧ (⟨2024, 1, 15⟩ : PyDate).year = 2024
      ∧ view_monthly_summary [⟨"income", .finite 1, "food", ⟨2024, 1, 15⟩⟩]
          "001" "2024" ⟨2026, 10, 12⟩
        = .ok ([], .finite 0, .finite 0)
      ∧ view_monthly_summary [⟨"income", .finite 1, "food", ⟨2024, 1, 15⟩⟩]
          "1" "2024" ⟨2026, 10, 12⟩
        = .ok ([⟨"income", .finite 1, "food", ⟨2024, 1, 15⟩⟩],
            sumIncome [⟨"income", .finite 1, "food", ⟨2024, 1, 15⟩⟩],
            sumOutcome [⟨"income", .finite 1, "food", ⟨2024, 1, 15⟩⟩]) := by
  refine ⟨by decide, by decide, by decide, by decide, by decide, ?_⟩
  rw [view_monthly_eval_some (m := 1) (y := 2024) (by decide) (by decide),
    if_neg (by decide)]
  rw [show monthly_transactions
      [(⟨"income", .finite 1, "food", ⟨2024, 1, 15⟩⟩ : Txn)] "1" "2024"
      = [⟨"income", .finite 1, "food", ⟨2024, 1, 15⟩⟩] from by decide]

/-- Claim C6 (code bug): the line written by Save for a transaction carries
sixteen spaces between the category's trailing comma and the date field —
the backslash line continuation inside the f-string embeds the next source
line's indentation into the written text (the .strip() call in the source
strips only the strftime result, not this padding).  The spec requires no
padding inside the line. -/
theorem C6_save_line_padding :
    save_transactions [⟨"income", .finite 100, "food", ⟨2024, 1, 15⟩⟩]
        = ["income,100.0,food,                15-01-2024"]
      ∧ ' ' ∈ ("income,100.0,food,                15-01-2024" : String).data := by
  refine ⟨by decide, by decide⟩

/-- Claim C7, counterexample: the amount check accepts non-finite values.
float("inf") and float("nan") both parse, neither compares below zero, so
Add stores them — the claim that non-finite amounts are rejected is false
on the code. -/
theorem C7_counterexample :
    validateAmount "inf" = .ok .inf ∧ validateAmount "nan" = .ok .nan
      ∧ add_transaction [] ⟨2026, 10, 12⟩ "income" "inf" "food" "01-01-2024"
        = .ok [⟨"income", .inf, "food", ⟨2024, 1, 1⟩⟩] := by
  refine ⟨by decide, by decide, by decide⟩

/-- Claim C7, amended: Add rejects an amount string with InvalidAmount
exactly when its stripped form does not parse as a Python float, or parses
to a value that compares below zero; non-negative non-finite values (inf,
nan — neither of which compares below zero) are accepted. -/
theorem C7_amount_acceptance (s : String) :
    (validateAmount s).isOk = true ↔
      ∃ f, pyFloatOfString (pyStrip s) = some f ∧ pyLt0 f = false := by
  constructor
  · intro h
    cases hp : pyFloatOfString (pyStrip s) with
    | none =>
      rw [validateAmount_eval_none hp] at h
      cases h
    | some f =>
      rw [validateAmount_eval_some hp] at h
      by_cases hl : pyLt0 f = true
      · rw [if_pos hl] at h
        cases h
      · refine ⟨f, rfl, ?_⟩
        cases hpf : pyLt0 f
        · rfl
        · exact absurd hpf hl
  · rintro ⟨f, hp, hl⟩
    rw [validateAmount_eval_some hp, if_neg (by simp [hl])]
    rfl

/-- Claim C8, counterexample: the date "1-1-2024" is not of the fixed
two-digit-day, two-digit-month pattern, yet Add accepts it — CPython's
strptime %d and %m match one digit as well, so the claim's "only if the
fixed 2-digit pattern" is false on the code. -/
theorem C8_counterexample :
    specDMYStrict "1-1-2024" = false
      ∧ validateDate "1-1-2024" ⟨2026, 10, 12⟩ = .ok ⟨2024, 1, 1⟩
      ∧ add_transaction [] ⟨2026, 10, 12⟩ "income" "1" "food" "1-1-2024"
        = .ok [⟨"income", .finite 1, "food", ⟨2024, 1, 1⟩⟩] := by
  refine ⟨by decide, by decide, by decide⟩

/-- Claim C8, amended: Add accepts a date string exactly when it decomposes
as day, month and year joined by literal dashes, with the day and month
written with one or two digits and in range (day 1..31, further bounded by
the month's length, month 1..12), the year with exactly four digits and at
least 1 — CPython's strptime leniency — and the denoted calendar date not
after the current date; anything else is rejected with InvalidDate. -/
theorem C8_date_acceptance (s : String) (today : PyDate) (d : PyDate) :
    validateDate s today = .ok d ↔
      ∃ D M Y : List Char,
        s.data = D ++ '-' :: (M ++ '-' :: Y) ∧
        (∀ c ∈ D, isDigitCh c = true) ∧ 1 ≤ D.length ∧ D.length ≤ 2 ∧
        1 ≤ valDigits D ∧ valDigits D ≤ 31 ∧
        (∀ c ∈ M, isDigitCh c = true) ∧ 1 ≤ M.length ∧ M.length ≤ 2 ∧
        1 ≤ valDigits M ∧ valDigits M ≤ 12 ∧
        (∀ c ∈ Y, isDigitCh c = true) ∧ Y.length = 4 ∧ 1 ≤ valDigits Y ∧
        valDigits D ≤ daysInMonth (valDigits Y) (valDigits M) ∧
        d = ⟨valDigits Y, valDigits M, valDigits D⟩ ∧
        PyDate.ltB today d = false := by
  constructor
  · intro h
    cases hp : parseDateDMY s with
    | none =>
      rw [validateDate_eval_none hp] at h
      cases h
    | some d2 =>
      rw [validateDate_eval_some hp] at h
      by_cases hlt : PyDate.ltB today d2 = true
      · rw [if_pos hlt] at h
        cases h
      · rw [if_neg hlt] at h
        injection h with h2
        subst h2
        obtain ⟨D, M, Y, hsp, hc1, hc2, hc3, hc4, hc5, hc6, hc7, hc8, hc9,
          hc10, hc11, hc12, hc13, hc14, hd⟩ := parseDateDMY_some.mp hp
        obtain ⟨hjoin, _, _, _⟩ := splitOnCh_three hsp
        refine ⟨D, M, Y, hjoin, hc1, hc2, hc3, hc4, hc5, hc6, hc7, hc8, hc9,
          hc10, hc11, hc12, hc13, hc14, hd, ?_⟩
        cases hpl : PyDate.ltB today d2
        · rfl
        · exact absurd hpl hlt
  · rintro ⟨D, M, Y, hjoin, hc1, hc2, hc3, hc4, hc5, hc6, hc7, hc8, hc9, hc10,
      hc11, hc12, hc13, hc14, hd, hlt⟩
    have hDd : ('-' : Char) ∉ D := fun hm => absurd (hc1 '-' hm) (by decide)
    have hMd : ('-' : Char) ∉ M := fun hm => absurd (hc6 '-' hm) (by decide)
    have hYd : ('-' : Char) ∉ Y := fun hm => absurd (hc11 '-' hm) (by decide)
    have hsp : splitOnCh '-' s.data = [D, M, Y] := by
      rw [hjoin, splitOnCh_append _ hDd, splitOnCh_append _ hMd,
        splitOnCh_of_not_mem hYd]
    have hparse : parseDateDMY s = some d :=
      parseDateDMY_some.mpr ⟨D, M, Y, hsp, hc1, hc2, hc3, hc4, hc5, hc6, hc7,
        hc8, hc9, hc10, hc11, hc12, hc13, hc14, hd⟩
    rw [validateDate_eval_some hparse, if_neg (by simp [hlt])]

/-- Claim C9 (confirmed): whenever Add fails any validation step, the
transaction sequence afterwards is exactly what it was before the call: in
the source the only statements that touch the list (the append and the
sort) come after every raise point, so an error leaves the state
untouched. -/
theorem C9_failed_add_leaves_state (txns : List Txn) (today : PyDate)
    (k a c ds : String) (e : AddError)
    (h : (add_transaction_run txns today k a c ds).2 = some e) :
    (add_transaction_run txns today k a c ds).1 = txns := by
  unfold add_transaction_run at h ⊢
  cases hr : add_transaction txns today k a c ds with
  | ok l =>
    rw [hr] at h
    simp at h
  | error e2 => rfl

/-- Claim C9, witness: a rejected kind leaves the empty ledger empty. -/
theorem C9_witness :
    (add_transaction_run [] ⟨2026, 10, 12⟩ "expense" "1" "food"
        "01-01-2024").1 = [] :=
  C9_failed_add_leaves_state [] ⟨2026, 10, 12⟩ "expense" "1" "food"
    "01-01-2024" .invalidType (by decide)

/-- Claim C10 (confirmed): Summary, MonthSummary and CategorySummary are
read-only — for every ledger and every input, the transaction sequence
after the call is the one before (in the source none of the three functions
assigns to the global list; they only read it and build new filtered
lists), and the lists the two filtering views return are sub-lists of the
ledger in ledger order. -/
theorem C10_views_readonly (txns : List Txn) (monthIn yearIn catIn : String)
    (today : PyDate) :
    (view_summary_run txns).1 = txns ∧
      (view_monthly_summary_run txns monthIn yearIn today).1 = txns ∧
      (filter_by_category_run txns catIn).1 = txns ∧
      ((filter_by_category txns catIn).1).Sublist txns ∧
      okProp (view_monthly_summary txns monthIn yearIn today)
        (fun sel => sel.Sublist txns) := by
  refine ⟨rfl, rfl, rfl, List.filter_sublist txns, ?_⟩
  unfold okProp
  cases hv : view_monthly_summary txns monthIn yearIn today with
  | ok r => exact view_monthly_ok_sublist hv
  | error e => exact trivial

end Finance
